import Mathlib

/-!
Verification of the matching and reconciliation engine of the band_positions
repository (module nmjanitsjar_scraper.streaming_search) against its design
specification.

Python strings are modelled as lists of characters (PyStr).  Floating point
scores are modelled as rationals; every arithmetic operation performed by the
scoring code (sums, products by decimal constants, divisions, max) is exact in
binary-free rational arithmetic, and the constants involved are small, so the
rational semantics coincides with the source's float semantics on all inputs
exercised here.

The Unicode text facilities of the Python standard library
(unicodedata.normalize NFKD, unicodedata.combining, str.lower, str.isalnum,
str.isspace) are not reimplemented character table by character table; they are
abstracted as a CharModel: a bundle of character functions together with the
documented Unicode facts about them that the proofs rely on.  A concrete ASCII
instance (asciiModel) witnesses the model and agrees with CPython on every
ASCII input used in concrete evaluations.
-/

namespace BandPositions

/-- Python strings, modelled as lists of characters. -/
abbrev PyStr := List Char

/-- Abstraction of the Unicode character operations used by the source
(unicodedata.normalize NFKD per character, unicodedata.combining, str.lower
per character, str.isalnum, str.isspace), together with the documented Unicode
facts the development needs: the ASCII hyphen is stable under all of them and
is not alphanumeric; no alphanumeric character is one of the seven special
characters the normalizer treats specially; and a non-combining character
produced by NFKD decomposition whose lowercase image is alphanumeric is itself
stable under NFKD, combining-mark removal and lowercasing. -/
structure CharModel where
  nfkd : Char → List Char
  combining : Char → Bool
  lower : Char → List Char
  isAlnum : Char → Bool
  isSpace : Char → Bool
  nfkd_hyphen : nfkd '-' = ['-']
  combining_hyphen : combining '-' = false
  lower_hyphen : lower '-' = ['-']
  alnum_hyphen : isAlnum '-' = false
  alnum_not_special : ∀ c, isAlnum c = true →
    c ≠ '(' ∧ c ≠ ')' ∧ c ≠ '’' ∧ c ≠ '‘' ∧ c ≠ '–' ∧ c ≠ '—'
  out_stable : ∀ cs c d, c ∈ nfkd cs → combining c = false → d ∈ lower c →
    isAlnum d = true → nfkd d = [d] ∧ combining d = false ∧ lower d = [d]

/-- Shorthand turning a Lean string literal into the PyStr model. -/
def pys (s : String) : PyStr := s.data

/-- The four typographic replacements performed at the start of
normalize_title: right and left single quotation marks become an ASCII
apostrophe, en dash and em dash become an ASCII hyphen.  Each replacement in
the source is a single-character str.replace, so the four together are one
character map. -/
def replaceTypographic (c : Char) : Char :=
  if c = '’' then '\u0027'
  else if c = '‘' then '\u0027'
  else if c = '–' then '-'
  else if c = '—' then '-'
  else c

/-- Loop of _strip_parenthetical with its explicit depth counter.  Mirrors the
source exactly: an opening parenthesis increments the depth and is appended, a
closing parenthesis decrements a positive depth and is always dropped, any
other character is dropped while the depth is positive. -/
def stripParenLoop : Nat → PyStr → PyStr
  | _, [] => []
  | depth, c :: cs =>
    if c = '(' then c :: stripParenLoop (depth + 1) cs
    else if c = ')' then stripParenLoop (depth - 1) cs
    else if 0 < depth then stripParenLoop depth cs
    else c :: stripParenLoop depth cs

/-- Embedding of _strip_parenthetical. -/
def strip_parenthetical (value : PyStr) : PyStr := stripParenLoop 0 value

/-- Maximal runs of alphanumeric characters of a string, in order: the token
accumulation loop at the end of normalize_title. -/
def pyTokens (M : CharModel) : PyStr → List PyStr
  | [] => []
  | c :: cs =>
    if M.isAlnum c then
      (c :: cs).takeWhile M.isAlnum :: pyTokens M ((c :: cs).dropWhile M.isAlnum)
    else pyTokens M cs
termination_by s => s.length
decreasing_by
  all_goals simp_all [List.dropWhile]
  calc (List.dropWhile M.isAlnum cs).length ≤ cs.length :=
        (List.dropWhile_sublist M.isAlnum (l := cs)).length_le
    _ < cs.length + 1 := Nat.lt_succ_self _

/-- Python "-".join on the token list. -/
def joinHyphen : List PyStr → PyStr
  | [] => []
  | [t] => t
  | t :: ts => t ++ '-' :: joinHyphen ts

/-- Character pipeline of normalize_title before tokenization: typographic
replacement, optional parenthetical stripping, NFKD decomposition, removal of
combining marks, lowercasing. -/
def normalizeCleaned (M : CharModel) (value : PyStr) (remove_parentheticals : Bool) : PyStr :=
  let cleaned0 := value.map replaceTypographic
  let cleaned1 := if remove_parentheticals then strip_parenthetical cleaned0 else cleaned0
  let cleaned2 := (cleaned1.flatMap M.nfkd).filter (fun c => !(M.combining c))
  cleaned2.flatMap M.lower

/-- Embedding of normalize_title: the character pipeline followed by joining
the maximal alphanumeric runs with single hyphens. -/
def normalize_title (M : CharModel) (value : PyStr)
    (remove_parentheticals : Bool := true) : PyStr :=
  if value = [] then []
  else joinHyphen (pyTokens M (normalizeCleaned M value remove_parentheticals))

/-! The character-level similarity used by similarity_score is
difflib.SequenceMatcher(None, a, b).ratio().  The algorithm below is CPython's
difflib with isjunk = None, specialised to that call: b2j keeps, for every
character, the ascending list of its positions in b, except that when b has at
least 200 characters the popular characters (appearing more than len(b)//100+1
times) are dropped (autojunk); find_longest_match runs the j2len dynamic
program over a[alo:ahi] and b[blo:bhi], keeping the first longest block (ties
resolved to the smallest i, then the smallest j), then widens the block while
the adjacent characters agree (the junk set is empty, so the two non-junk
widening loops apply to every character and the junk widening loops are
no-ops); the total number of matched characters is the sum of the recursively
collected block sizes, and ratio is 2*M divided by the total length (1.0 when
both strings are empty). -/

/-- Record for the best matching block of find_longest_match. -/
structure MatchBlock where
  besti : Nat
  bestj : Nat
  size : Nat
deriving Repr, DecidableEq

/-- Ascending positions at which character c occurs in b. -/
def positionsOf (b : PyStr) (c : Char) : List Nat :=
  (List.range b.length).filter (fun j => b.getD j ' ' = c)

/-- The b2j table of SequenceMatcher with isjunk = None: positions per
character, with popular characters dropped when the autojunk heuristic is
active (b of length at least 200). -/
def b2jFun (b : PyStr) (c : Char) : List Nat :=
  if 200 ≤ b.length ∧ b.length / 100 + 1 < b.count c then [] else positionsOf b c

/-- Read of the previous row's j2len dictionary at j-1 with default 0; the
Python index -1 arising at j = 0 is never a key. -/
def j2lenGet (old : List (Nat × Nat)) (j : Nat) : Nat :=
  if j = 0 then 0 else
    match old.find? (fun e => e.1 == j - 1) with
    | some e => e.2
    | none => 0

/-- Inner loop of find_longest_match for one index i of a: walk the ascending
position list of a[i] in b, skip positions below blo, stop at the first
position at or beyond bhi, extend the diagonal run length from the previous
row, and remember the first strictly longer block. -/
def innerLoop (i blo bhi : Nat) (old : List (Nat × Nat)) :
    List Nat → List (Nat × Nat) → MatchBlock → List (Nat × Nat) × MatchBlock
  | [], acc, best => (acc, best)
  | j :: js, acc, best =>
    if j < blo then innerLoop i blo bhi old js acc best
    else if bhi ≤ j then (acc, best)
    else
      let k := j2lenGet old j + 1
      let best2 := if best.size < k then MatchBlock.mk (i + 1 - k) (j + 1 - k) k else best
      innerLoop i blo bhi old js ((j, k) :: acc) best2

/-- Outer loop of find_longest_match: rows i, i+1, ..., i+n-1 of the j2len
dynamic program. -/
def dpLoop (a : PyStr) (b2j : Char → List Nat) (blo bhi : Nat) :
    Nat → Nat → List (Nat × Nat) → MatchBlock → MatchBlock
  | _, 0, _, best => best
  | i, n + 1, j2len, best =>
    let st := innerLoop i blo bhi j2len (b2j (a.getD i ' ')) [] best
    dpLoop a b2j blo bhi (i + 1) n st.1 st.2

/-- Leftward widening loop of find_longest_match (the junk set is empty, so
the guard is only that the adjacent characters agree).  The fuel is the
starting besti, which bounds the number of iterations. -/
def extendLeft (a b : PyStr) (alo blo : Nat) : Nat → MatchBlock → MatchBlock
  | 0, blk => blk
  | fuel + 1, blk =>
    if alo < blk.besti ∧ blo < blk.bestj ∧
        a.getD (blk.besti - 1) ' ' = b.getD (blk.bestj - 1) ' ' then
      extendLeft a b alo blo fuel (MatchBlock.mk (blk.besti - 1) (blk.bestj - 1) (blk.size + 1))
    else blk

/-- Rightward widening loop of find_longest_match. -/
def extendRight (a b : PyStr) (ahi bhi : Nat) : Nat → MatchBlock → MatchBlock
  | 0, blk => blk
  | fuel + 1, blk =>
    if blk.besti + blk.size < ahi ∧ blk.bestj + blk.size < bhi ∧
        a.getD (blk.besti + blk.size) ' ' = b.getD (blk.bestj + blk.size) ' ' then
      extendRight a b ahi bhi fuel (MatchBlock.mk blk.besti blk.bestj (blk.size + 1))
    else blk

/-- Embedding of SequenceMatcher.find_longest_match on a[alo:ahi] and
b[blo:bhi] with an empty junk set. -/
def findLongestMatch (a b : PyStr) (b2j : Char → List Nat) (alo ahi blo bhi : Nat) : MatchBlock :=
  let best := dpLoop a b2j blo bhi alo (ahi - alo) [] (MatchBlock.mk alo blo 0)
  let blk := extendLeft a b alo blo best.besti best
  extendRight a b ahi bhi ahi blk

/-- Total size of the matching blocks of get_matching_blocks: recursively
split around the longest block.  The fuel dominates the recursion depth, which
is bounded by the length of the a-range; the top-level call passes enough. -/
def matchSum (a b : PyStr) (b2j : Char → List Nat) : Nat → Nat → Nat → Nat → Nat → Nat
  | 0, _, _, _, _ => 0
  | fuel + 1, alo, ahi, blo, bhi =>
    let blk := findLongestMatch a b b2j alo ahi blo bhi
    if blk.size = 0 then 0
    else
      matchSum a b b2j fuel alo blk.besti blo blk.bestj + blk.size +
        matchSum a b b2j fuel (blk.besti + blk.size) ahi (blk.bestj + blk.size) bhi

/-- Embedding of SequenceMatcher(None, a, b).ratio(): twice the number of
matched characters over the total length, and 1.0 when both strings are
empty. -/
def seqRatioQ (a b : PyStr) : ℚ :=
  if a.length + b.length = 0 then 1
  else (2 * (matchSum a b (b2jFun b) (a.length + 1) 0 a.length 0 b.length) : ℚ) /
    ((a.length + b.length : Nat) : ℚ)

/-- Python substring containment (needle in hay) on the string model. -/
def containsSub (hay needle : PyStr) : Bool :=
  (List.range (hay.length + 1)).any (fun i => needle.isPrefixOf (hay.drop i))

/-- Embedding of similarity_score: 0 when either slug is empty, 1 when they
are equal, otherwise the maximum of the SequenceMatcher ratio (raised to at
least 0.9 when one slug is a substring of the other) and the token overlap
ratio over the hyphen-separated token sets. -/
def similarity_score (piece_slug track_slug : PyStr) : ℚ :=
  if piece_slug = [] ∨ track_slug = [] then 0
  else if piece_slug = track_slug then 1
  else
    let ratio0 := seqRatioQ piece_slug track_slug
    let tokens_piece := (List.splitOn '-' piece_slug).toFinset
    let tokens_track := (List.splitOn '-' track_slug).toFinset
    let token_overlap : ℚ :=
      if tokens_piece = ∅ ∨ tokens_track = ∅ then 0
      else ((tokens_piece ∩ tokens_track).card : ℚ) /
        ((max tokens_piece.card tokens_track.card : Nat) : ℚ)
    let ratio1 :=
      if containsSub track_slug piece_slug || containsSub piece_slug track_slug then
        max ratio0 (9 / 10)
      else ratio0
    max ratio1 token_overlap

/-- Lowercase mapping table for the ASCII letters. -/
def asciiLowerPairs : List (Char × Char) :=
  [('A','a'), ('B','b'), ('C','c'), ('D','d'), ('E','e'), ('F','f'), ('G','g'),
   ('H','h'), ('I','i'), ('J','j'), ('K','k'), ('L','l'), ('M','m'), ('N','n'),
   ('O','o'), ('P','p'), ('Q','q'), ('R','r'), ('S','s'), ('T','t'), ('U','u'),
   ('V','v'), ('W','w'), ('X','x'), ('Y','y'), ('Z','z')]

/-- ASCII lowercasing of one character; other characters are unchanged. -/
def asciiLowerChar (c : Char) : Char :=
  match asciiLowerPairs.find? (fun p => p.1 == c) with
  | some p => p.2
  | none => c

/-- ASCII alphanumeric test. -/
def asciiIsAlnum (c : Char) : Bool :=
  decide (('a' ≤ c ∧ c ≤ 'z') ∨ ('A' ≤ c ∧ c ≤ 'Z') ∨ ('0' ≤ c ∧ c ≤ '9'))

theorem asciiLowerPairs_snd_not_key :
    ∀ p ∈ asciiLowerPairs, asciiLowerPairs.find? (fun q => q.1 == p.2) = none := by
  decide

theorem asciiLowerChar_idem (c : Char) : asciiLowerChar (asciiLowerChar c) = asciiLowerChar c := by
  unfold asciiLowerChar
  cases h : asciiLowerPairs.find? (fun p => p.1 == c) with
  | none => simp [h]
  | some p =>
    have hmem : p ∈ asciiLowerPairs := List.mem_of_find?_eq_some h
    simp [asciiLowerPairs_snd_not_key p hmem]

/-- Concrete ASCII character model: NFKD and combining-mark removal act
trivially (correct on ASCII, where no character decomposes and none is a
combining mark), lowercasing is the ASCII table, alphanumeric and whitespace
are the ASCII tests.  It agrees with CPython on every ASCII string. -/
def asciiModel : CharModel where
  nfkd c := [c]
  combining _ := false
  lower c := [asciiLowerChar c]
  isAlnum := asciiIsAlnum
  isSpace c := decide (c = ' ' ∨ c = '\t' ∨ c = '\n' ∨ c = '\r')
  nfkd_hyphen := rfl
  combining_hyphen := rfl
  lower_hyphen := by decide
  alnum_hyphen := by decide
  alnum_not_special := by
    intro c h
    refine ⟨?_, ?_, ?_, ?_, ?_, ?_⟩ <;> rintro rfl <;> exact absurd h (by decide)
  out_stable := by
    intro cs c d hc hcomb hd halnum
    simp only [List.mem_singleton] at hc hd
    subst hd
    refine ⟨rfl, rfl, ?_⟩
    simp [asciiLowerChar_idem]

/-- Python str.strip with no argument: remove leading and trailing whitespace. -/
def pyStrip (M : CharModel) (s : PyStr) : PyStr :=
  ((s.dropWhile M.isSpace).reverse.dropWhile M.isSpace).reverse

/-- Python str.lower on a whole string: concatenation of the per-character
lowercase mappings. -/
def pyLowerStr (M : CharModel) (s : PyStr) : PyStr := s.flatMap M.lower

/-- Python expression x or y for an optional string x: y when x is absent or
empty (falsy), x otherwise. -/
def pyOrStr (x : Option PyStr) (y : PyStr) : PyStr :=
  match x with
  | some s => if s = [] then y else s
  | none => y

/-- Decimal digit run parser: all characters must be digits and the run must
be nonempty. -/
def parseDigits (s : PyStr) : Option Nat :=
  if s ≠ [] ∧ s.all (fun c => decide ('0' ≤ c ∧ c ≤ '9')) then
    some (s.foldl (fun n c => n * 10 + (c.toNat - 48)) 0)
  else none

/-- Python int(s) on a string: strip whitespace, optional sign, decimal
digits; anything else raises ValueError, modelled as none. -/
def pyInt (M : CharModel) (s : PyStr) : Option Int :=
  match pyStrip M s with
  | '+' :: rest => (parseDigits rest).map Int.ofNat
  | '-' :: rest => (parseDigits rest).map (fun n => -(n : Int))
  | t => (parseDigits t).map Int.ofNat

/-- Decimal digits of a natural number, modelling Python str(year). -/
def natToStr (n : Nat) : PyStr := Nat.toDigits 10 n

/-- Provider album record: the union of the dictionary keys that
score_album_relevance and the two collection routines read (Spotify uses
name, release_date, album_type, id; the iTunes search API uses collectionName,
releaseDate, collectionId).  The field itemType models the dictionary key
named type. -/
structure Album where
  name : Option PyStr := none
  collectionName : Option PyStr := none
  release_date : Option PyStr := none
  releaseDate : Option PyStr := none
  album_type : Option PyStr := none
  itemType : Option PyStr := none
  id : Option PyStr := none
  collectionId : Option Nat := none
deriving DecidableEq, Repr

/-- Embedding of get_division_tokens: lowercase and strip the division name,
add the elite synonyms when it mentions elite, and add the six numbered
synonyms of the first digit 1-7 that occurs in it.  The source collects the
synonyms in a set and only ever asks whether some member is a substring of an
album name, so the list model is faithful. -/
def get_division_tokens (M : CharModel) (division : PyStr) : List PyStr :=
  let normalized := pyStrip M (pyLowerStr M division)
  let eliteTokens :=
    if containsSub normalized (pys "elite") then
      [pys "elite", pys "elitedivisjon", pys "elite-divisjon", pys "elite divisjon"]
    else []
  let numTokens :=
    match (pys "1234567").find? (fun d => containsSub normalized [d]) with
    | some d => [[d] ++ pys ". div", [d] ++ pys " div", [d] ++ pys ". divisjon",
                 [d] ++ pys "-divisjon", [d] ++ pys ".div", [d] ++ pys "div"]
    | none => []
  eliteTokens ++ numTokens

/-- Embedding of score_album_relevance with its additive weights: +200 for a
parsed release year equal to the target, +100 for the literal year token in
the lowercased album name, +150 for a division synonym, +20 for a contest
token, +5 for a live marker, +2 for album type album and -10 for a single. -/
def score_album_relevance (M : CharModel) (album : Album) (year : Nat) (division : PyStr) : ℚ :=
  let album_name := pyLowerStr M (pyOrStr album.name (pyOrStr album.collectionName []))
  let release_date := pyOrStr album.release_date (pyOrStr album.releaseDate [])
  let release_year : Option Int :=
    if 4 ≤ release_date.length then pyInt M (release_date.take 4) else none
  let s1 : ℚ := if release_year = some (year : Int) then 200 else 0
  let s2 : ℚ := if containsSub album_name (natToStr year) then 100 else 0
  let s3 : ℚ :=
    if (get_division_tokens M division).any (fun t => containsSub album_name t) then 150 else 0
  let s4 : ℚ :=
    if [pys "nm brass", pys "nm janitsjar", pys "norgesmesterskap"].any
        (fun t => containsSub album_name t) then 20 else 0
  let s5 : ℚ :=
    if containsSub album_name (pys "live") || containsSub album_name (pys "(live)") then 5 else 0
  let album_type := pyOrStr album.album_type (pyOrStr album.itemType [])
  let s6 : ℚ :=
    if album_type = pys "album" then 2 else if album_type = pys "single" then -10 else 0
  s1 + s2 + s3 + s4 + s5 + s6

/-- Competition performance record (frozen dataclass Performance). -/
structure Performance where
  year : Nat
  division : PyStr
  band : PyStr
  piece : PyStr
deriving DecidableEq, Repr

/-- Candidate track (dataclass Track). -/
structure Track where
  platform : PyStr
  title : PyStr
  slug : PyStr
  slug_variants : List PyStr
  url : PyStr
  album : PyStr
  album_id : PyStr
  artist : PyStr := []
  match_score : ℚ := 0
deriving DecidableEq, Repr

/-- JSON-ish values stored in the output dictionaries and in override field
tables. -/
inductive Val where
  | vnone
  | vstr (s : PyStr)
  | vnat (n : Nat)
  | vbool (b : Bool)
  | vlist (vs : List PyStr)
deriving DecidableEq, Repr

/-- Python dictionary with insertion order, as the output entries are
serialized in key order. -/
abbrev PyDict := List (PyStr × Val)

/-- Dictionary read (dict.get, returning None for a missing key). -/
def dictGet (d : PyDict) (k : PyStr) : Option Val :=
  (d.find? (fun p => p.1 == k)).map (fun p => p.2)

/-- Dictionary write: an existing key keeps its position and gets the new
value, a new key is appended, as in a Python dict. -/
def dictSet (d : PyDict) (k : PyStr) (v : Val) : PyDict :=
  if d.any (fun p => p.1 == k) then d.map (fun p => if p.1 == k then (k, v) else p)
  else d ++ [(k, v)]

/-- Python truthiness of an optional value. -/
def pyTruthy : Option Val → Bool
  | none => false
  | some Val.vnone => false
  | some (Val.vstr s) => decide (s ≠ [])
  | some (Val.vnat n) => decide (n ≠ 0)
  | some (Val.vbool b) => b
  | some (Val.vlist vs) => decide (vs ≠ [])

/-- Python str() of a value, used by the output year gate on the album
field. -/
def pyStrOfVal : Val → PyStr
  | Val.vnone => pys "None"
  | Val.vstr s => s
  | Val.vnat n => natToStr n
  | Val.vbool b => if b then pys "True" else pys "False"
  | Val.vlist vs => pys "[" ++ List.intercalate (pys ", ") vs ++ pys "]"

/-- Python expression str(v or ""): falsy values collapse to the empty
string before str() is applied. -/
def pyStrOr (v : Option Val) : PyStr :=
  if pyTruthy v then pyStrOfVal (v.getD Val.vnone) else []

/-- Match result for one performance (dataclass StreamingMatch). -/
structure StreamingMatch where
  performance : Performance
  spotify : Option Track := none
  apple_music : Option Track := none
deriving DecidableEq, Repr

/-- Embedding of StreamingMatch.to_dict: the representative track is the
Spotify one when present, otherwise the Apple Music one (Python: self.spotify
or self.apple_music on always-truthy Track objects); its title and album fill
recording_title and album, while each provider URL is emitted from its own
track. -/
def StreamingMatch.to_dict (m : StreamingMatch) : PyDict :=
  let track := m.spotify.or m.apple_music
  [(pys "year", Val.vnat m.performance.year),
   (pys "division", Val.vstr m.performance.division),
   (pys "band", Val.vstr m.performance.band),
   (pys "result_piece", Val.vstr m.performance.piece),
   (pys "recording_title", match track with | some t => Val.vstr t.title | none => Val.vnone),
   (pys "album", match track with | some t => Val.vstr t.album | none => Val.vnone),
   (pys "spotify", match m.spotify with | some t => Val.vstr t.url | none => Val.vnone),
   (pys "apple_music", match m.apple_music with | some t => Val.vstr t.url | none => Val.vnone)]

/-! Per-performance matching.  match_spotify and match_apple share one loop
body character for character; matchBest is that shared body, and the two
methods of StreamingLinkFinder below apply it to the tracks collected from
their provider. -/

/-- Best similarity of the piece slug over the slug variants of a track. -/
def pieceMatchScore (piece_slug : PyStr) (t : Track) : ℚ :=
  t.slug_variants.foldl (fun best v =>
    let s := similarity_score piece_slug v
    if best < s then s else best) 0

/-- Band and artist similarity: 0 unless the track carries an artist and the
performance has a nonempty band slug. -/
def bandMatchScore (M : CharModel) (band_slug : PyStr) (t : Track) : ℚ :=
  if t.artist ≠ [] ∧ band_slug ≠ [] then
    similarity_score band_slug (normalize_title M t.artist)
  else 0

/-- Combined score: a strong band match blends 60/40, a moderate one 80/20,
otherwise the piece score alone. -/
def combinedScore (M : CharModel) (piece_slug band_slug : PyStr) (t : Track) : ℚ :=
  let p := pieceMatchScore piece_slug t
  let b := bandMatchScore M band_slug t
  if 7 / 10 < b then p * (6 / 10) + b * (4 / 10)
  else if 4 / 10 < b then p * (8 / 10) + b * (2 / 10)
  else p

/-- One step of the shared selection loop of match_spotify and match_apple:
keep the first candidate whose combined score strictly exceeds the running
best. -/
def matchStep (M : CharModel) (piece_slug band_slug : PyStr)
    (st : Option Track × ℚ) (t : Track) : Option Track × ℚ :=
  let c := combinedScore M piece_slug band_slug t
  if st.2 < c then (some t, c) else st

/-- Shared body of match_spotify and match_apple: fold matchStep over the
candidates starting from (None, 0.0), then accept the best candidate only
when its score reaches 0.65, stamping the score into the returned track. -/
def matchBest (M : CharModel) (piece_slug band_slug : PyStr) (tracks : List Track) : Option Track :=
  let best := tracks.foldl (matchStep M piece_slug band_slug) ((none : Option Track), (0 : ℚ))
  match best with
  | (some t, s) => if 65 / 100 ≤ s then some { t with match_score := s } else none
  | (none, _) => none

/-! Album search term generation.  The source accumulates the variants in a
Python set and returns them in the set's iteration order, which is not a
function of the inputs (string hashing is randomized per process); the list
below fixes one generation order, the set is its deduplication, and a run's
actual issuing order is modelled as an explicit parameter ranging over the
enumerations of that set. -/

/-- Dictionary ALBUM_PREFIXES with its .get default. -/
def albumPrefixFor (band_type : PyStr) : PyStr :=
  if band_type = pys "wind" then pys "NM Janitsjar"
  else if band_type = pys "brass" then pys "NM Brass"
  else pys "NM Janitsjar"

/-- Dictionary DIVISION_ALBUM_LABELS with its .get default. -/
def divisionAlbumLabel (division : PyStr) : PyStr :=
  if division = pys "Elite" then pys "Elitedivisjon"
  else if division = pys "Elitedivisjon" then pys "Elitedivisjon"
  else division

/-- Dictionary DIVISION_SYNONYMS with its .get default. -/
def divisionSynonyms (nd : PyStr) : List PyStr :=
  if nd = pys "Elitedivisjon" then [pys "Elitedivisjon", pys "Elite"]
  else if nd = pys "1. divisjon" then [pys "1. divisjon", pys "1. div", pys "1.div", pys "1 div"]
  else if nd = pys "2. divisjon" then [pys "2. divisjon", pys "2. div", pys "2.div", pys "2 div"]
  else if nd = pys "3. divisjon" then [pys "3. divisjon", pys "3. div", pys "3.div", pys "3 div"]
  else if nd = pys "4. divisjon" then [pys "4. divisjon", pys "4. div", pys "4.div", pys "4 div"]
  else if nd = pys "5. divisjon" then [pys "5. divisjon", pys "5. div", pys "5.div", pys "5 div"]
  else if nd = pys "6. divisjon" then [pys "6. divisjon", pys "6. div", pys "6.div", pys "6 div"]
  else if nd = pys "7. divisjon" then [pys "7. divisjon", pys "7. div", pys "7.div", pys "7 div"]
  else [nd]

/-- All variants generated by resolve_album_search_terms, in generation
order, before set deduplication. -/
def resolveAlbumSearchTermsList (M : CharModel) (year : Nat) (division band_type : PyStr) :
    List PyStr :=
  let pre := albumPrefixFor band_type
  let nd := divisionAlbumLabel division
  let dvs := divisionSynonyms nd
  (pre ++ pys " " ++ natToStr year) ::
    dvs.flatMap (fun dv =>
      let base := pyStrip M (pre ++ pys " " ++ natToStr year ++ pys " " ++ dv)
      [base,
       base ++ pys " (Live)",
       pre ++ pys " " ++ natToStr year ++ pys " – " ++ dv ++ pys " (Live)",
       pre ++ pys " " ++ natToStr year ++ pys " - " ++ dv])

/-- The set built by resolve_album_search_terms, with the final filter that
drops an empty variant.  The function's return value is an enumeration of
this set in an order the inputs do not determine. -/
def resolveAlbumSearchTermsSet (M : CharModel) (year : Nat) (division band_type : PyStr) :
    Finset PyStr :=
  ((resolveAlbumSearchTermsList M year division band_type).filter (fun v => v ≠ [])).toFinset

/-- Proposition that a list is one of the possible return values of
resolve_album_search_terms for the given inputs: an enumeration, without
repetition, of the variant set. -/
def IsTermOrder (M : CharModel) (year : Nat) (division band_type : PyStr)
    (order : List PyStr) : Prop :=
  order.Nodup ∧ order.toFinset = resolveAlbumSearchTermsSet M year division band_type

/-- Spotify track item as read from the provider response or from the cache:
the dictionary keys id, name, the spotify entry of external_urls, and the
name of each artists entry. -/
structure SpotItem where
  id : Option PyStr := none
  name : Option PyStr := none
  spotifyUrl : Option PyStr := none
  artistNames : List (Option PyStr) := []
deriving DecidableEq, Repr

/-- Apple (iTunes) track item: trackId, trackName, trackViewUrl, artistName
of the already wrapperType-filtered lookup results, which is also what the
cache stores. -/
structure AppleItem where
  trackId : Option Nat := none
  trackName : Option PyStr := none
  trackViewUrl : Option PyStr := none
  artistName : Option PyStr := none
deriving DecidableEq, Repr

/-- Pure interface of the Spotify client as the collection code uses it: the
album search, the persistent cache lookup, and the track-listing fetch used
on a cache miss.  Writing a fetched list back to the cache only changes later
reads to return exactly what the fetch returned, so the write is not
modelled. -/
structure SpotifyProvider where
  searchAlbums : PyStr → List Album
  cachedAlbumTracks : PyStr → Option (List SpotItem)
  fetchAlbumTracks : PyStr → List SpotItem

/-- Pure interface of the Apple Music client, cache keyed by the decimal
string of the collection id. -/
structure AppleProvider where
  searchAlbum : PyStr → List Album
  cachedAlbumTracks : PyStr → Option (List AppleItem)
  lookupAlbumTracks : Nat → List AppleItem

/-- Processing of one search term by the Spotify candidate collection loop:
skip albums with a falsy or already seen id, score and append the rest. -/
def spotifyTermStep (M : CharModel) (P : SpotifyProvider) (year : Nat) (division : PyStr)
    (st : List (ℚ × Album) × List PyStr) (term : PyStr) : List (ℚ × Album) × List PyStr :=
  (P.searchAlbums term).foldl
    (fun (st : List (ℚ × Album) × List PyStr) album =>
      match album.id with
      | none => st
      | some aid =>
        if aid = [] ∨ aid ∈ st.2 then st
        else (st.1 ++ [(score_album_relevance M album year division, album)], st.2 ++ [aid]))
    st

/-- Candidate collection loop of _get_spotify_tracks_for_division: walk the
search terms in the order the set iteration produced, process each term, and
stop as soon as 15 candidates have accumulated after a term. -/
def collectSpotifyCandidates (M : CharModel) (P : SpotifyProvider) (year : Nat)
    (division : PyStr) : List PyStr → List (ℚ × Album) → List PyStr → List (ℚ × Album)
  | [], cands, _ => cands
  | term :: rest, cands, seen =>
    let step := spotifyTermStep M P year division (cands, seen) term
    if 15 ≤ step.1.length then step.1
    else collectSpotifyCandidates M P year division rest step.1 step.2

/-- Candidate collection with the cap removed: the fold of the per-term step
over the whole term order. -/
def collectSpotifyFull (M : CharModel) (P : SpotifyProvider) (year : Nat) (division : PyStr)
    (o : List PyStr) (st : List (ℚ × Album) × List PyStr) : List (ℚ × Album) × List PyStr :=
  o.foldl (spotifyTermStep M P year division) st

/-- Year gate of the Spotify collection: keep an album only when its parsed
release year equals the target year or the year token occurs in the
lowercased album name. -/
def spotifyYearFilter (M : CharModel) (year : Nat) (cands : List (ℚ × Album)) :
    List (ℚ × Album) :=
  cands.filter (fun sa =>
    let release_date := pyOrStr sa.2.release_date []
    let album_name_lower := pyLowerStr M (pyOrStr sa.2.name [])
    let release_year : Option Int :=
      if 4 ≤ release_date.length then pyInt M (release_date.take 4) else none
    decide (release_year = some (year : Int)) || containsSub album_name_lower (natToStr year))

/-- Artist string of a Spotify item: the truthy artist names joined with
a comma and space. -/
def spotifyArtistOf (item : SpotItem) : PyStr :=
  List.intercalate (pys ", ") ((item.artistNames.filterMap id).filter (fun n => n ≠ []))

/-- Slug variant accumulation shared by both collectors: the slug with and
without parenthetical stripping, keeping nonempty distinct values in order. -/
def slugVariantsOf (M : CharModel) (title : PyStr) : List PyStr :=
  let slug_primary := normalize_title M title
  let slug_full := normalize_title M title false
  [slug_primary, slug_full].foldl
    (fun acc c => if c ≠ [] ∧ c ∉ acc then acc ++ [c] else acc) []

/-- Per-item step of the Spotify track loop: deduplicate by truthy track id,
then drop items without a truthy title and url, and otherwise build the
Track. -/
def processSpotItem (M : CharModel) (album : Album) (aid : PyStr)
    (st : List Track × List PyStr) (item : SpotItem) : List Track × List PyStr :=
  let skip : Bool := match item.id with
    | some tid => decide (tid ≠ []) && decide (tid ∈ st.2)
    | none => false
  if skip then st
  else
    let seen2 := match item.id with
      | some tid => if tid ≠ [] then st.2 ++ [tid] else st.2
      | none => st.2
    match item.name, item.spotifyUrl with
    | some title, some url =>
      if title = [] ∨ url = [] then (st.1, seen2)
      else
        let artist := spotifyArtistOf item
        let slug_primary := normalize_title M title
        let variants := slugVariantsOf M title
        (st.1 ++ [Track.mk (pys "spotify") title (variants.headD slug_primary)
          (if variants = [] then [slug_primary] else variants) url
          ((album.name).getD []) aid artist 0], seen2)
    | _, _ => (st.1, seen2)

/-- Track collection loop over the year-filtered, sorted candidate albums:
skip relevance scores below 10, read the album tracks from the cache or fetch
them, and fold the per-item step. -/
def spotifyTracksFromAlbums (M : CharModel) (P : SpotifyProvider) :
    List (ℚ × Album) → List Track → List PyStr → List Track
  | [], tracks, _ => tracks
  | (score, album) :: rest, tracks, seen_ids =>
    if score < 10 then spotifyTracksFromAlbums M P rest tracks seen_ids
    else
      let aid := (album.id).getD []
      let items := match P.cachedAlbumTracks aid with
        | some ts => ts
        | none => P.fetchAlbumTracks aid
      let st := items.foldl (processSpotItem M album aid) (tracks, seen_ids)
      spotifyTracksFromAlbums M P rest st.1 st.2

/-- Embedding of _get_spotify_tracks_for_division as a function of the term
issuing order: collect candidates with the 15-candidate cap, sort stably by
descending relevance, apply the year gate, and collect deduplicated tracks.
The per-run memoisation dictionary caches this pure value and the
_discovered_album_names dictionary is written but never read, so neither is
modelled. -/
def getSpotifyTracksForDivision (M : CharModel) (P : Option SpotifyProvider)
    (order : List PyStr) (year : Nat) (division : PyStr) : List Track :=
  match P with
  | none => []
  | some P =>
    let cands := collectSpotifyCandidates M P year division order [] []
    let sorted := cands.mergeSort (fun x y => decide (y.1 ≤ x.1))
    let filtered := spotifyYearFilter M year sorted
    spotifyTracksFromAlbums M P filtered [] []

/-- Candidate collection loop of _get_apple_tracks_for_division: identical to
the Spotify one except that albums are keyed by the numeric collectionId
(falsy when 0). -/
def collectAppleCandidates (M : CharModel) (P : AppleProvider) (year : Nat)
    (division : PyStr) : List PyStr → List (ℚ × Album) → List Nat → List (ℚ × Album)
  | [], cands, _ => cands
  | term :: rest, cands, seen =>
    let step := (P.searchAlbum term).foldl
      (fun (st : List (ℚ × Album) × List Nat) album =>
        match album.collectionId with
        | none => st
        | some cid =>
          if cid = 0 ∨ cid ∈ st.2 then st
          else (st.1 ++ [(score_album_relevance M album year division, album)], st.2 ++ [cid]))
      (cands, seen)
    if 15 ≤ step.1.length then step.1
    else collectAppleCandidates M P year division rest step.1 step.2

/-- Year gate of the Apple collection, over releaseDate and collectionName. -/
def appleYearFilter (M : CharModel) (year : Nat) (cands : List (ℚ × Album)) :
    List (ℚ × Album) :=
  cands.filter (fun sa =>
    let release_date := pyOrStr sa.2.releaseDate []
    let album_name_lower := pyLowerStr M (pyOrStr sa.2.collectionName [])
    let release_year : Option Int :=
      if 4 ≤ release_date.length then pyInt M (release_date.take 4) else none
    decide (release_year = some (year : Int)) || containsSub album_name_lower (natToStr year))

/-- Per-item step of the Apple track loop. -/
def processAppleItem (M : CharModel) (album : Album) (cid : Nat)
    (st : List Track × List Nat) (song : AppleItem) : List Track × List Nat :=
  let skip : Bool := match song.trackId with
    | some tid => decide (tid ≠ 0) && decide (tid ∈ st.2)
    | none => false
  if skip then st
  else
    let seen2 := match song.trackId with
      | some tid => if tid ≠ 0 then st.2 ++ [tid] else st.2
      | none => st.2
    match song.trackName, song.trackViewUrl with
    | some title, some url =>
      if title = [] ∨ url = [] then (st.1, seen2)
      else
        let artist := pyOrStr song.artistName []
        let slug_primary := normalize_title M title
        let variants := slugVariantsOf M title
        (st.1 ++ [Track.mk (pys "apple_music") title (variants.headD slug_primary)
          (if variants = [] then [slug_primary] else variants) url
          ((album.collectionName).getD []) (natToStr cid) artist 0], seen2)
    | _, _ => (st.1, seen2)

/-- Track collection loop over the filtered Apple albums. -/
def appleTracksFromAlbums (M : CharModel) (P : AppleProvider) :
    List (ℚ × Album) → List Track → List Nat → List Track
  | [], tracks, _ => tracks
  | (score, album) :: rest, tracks, seen_ids =>
    if score < 10 then appleTracksFromAlbums M P rest tracks seen_ids
    else
      let cid := (album.collectionId).getD 0
      let songs := match P.cachedAlbumTracks (natToStr cid) with
        | some ts => ts
        | none => P.lookupAlbumTracks cid
      let st := songs.foldl (processAppleItem M album cid) (tracks, seen_ids)
      appleTracksFromAlbums M P rest st.1 st.2

/-- Embedding of _get_apple_tracks_for_division as a function of the term
issuing order. -/
def getAppleTracksForDivision (M : CharModel) (P : Option AppleProvider)
    (order : List PyStr) (year : Nat) (division : PyStr) : List Track :=
  match P with
  | none => []
  | some P =>
    let cands := collectAppleCandidates M P year division order [] []
    let sorted := cands.mergeSort (fun x y => decide (y.1 ≤ x.1))
    let filtered := appleYearFilter M year sorted
    appleTracksFromAlbums M P filtered [] []

/-- State of StreamingLinkFinder that the outputs depend on: the optional
provider clients, the band type, and the order in which each per-division
search issued the members of the search term set (one enumeration per (year,
division) pair; a run of the Python code draws it from set iteration, which
within one process is the same for repeated constructions of the same set). -/
structure StreamingLinkFinder where
  spotify : Option SpotifyProvider
  apple_music : Option AppleProvider
  band_type : PyStr
  termOrder : Nat → PyStr → List PyStr

/-- Embedding of StreamingLinkFinder.match_spotify. -/
def StreamingLinkFinder.match_spotify (M : CharModel) (F : StreamingLinkFinder)
    (performance : Performance) : Option Track :=
  let tracks := getSpotifyTracksForDivision M F.spotify
    (F.termOrder performance.year performance.division) performance.year performance.division
  if tracks = [] then none
  else matchBest M (normalize_title M performance.piece) (normalize_title M performance.band) tracks

/-- Embedding of StreamingLinkFinder.match_apple. -/
def StreamingLinkFinder.match_apple (M : CharModel) (F : StreamingLinkFinder)
    (performance : Performance) : Option Track :=
  let tracks := getAppleTracksForDivision M F.apple_music
    (F.termOrder performance.year performance.division) performance.year performance.division
  if tracks = [] then none
  else matchBest M (normalize_title M performance.piece) (normalize_title M performance.band) tracks

/-- Embedding of make_lookup_slug: None for a falsy input, otherwise the
normalized slug, falling back to the stripped lowercased raw string when
normalization yields an empty slug. -/
def make_lookup_slug (M : CharModel) (value : Option PyStr) : Option PyStr :=
  match value with
  | none => none
  | some v =>
    if v = [] then none
    else
      let normalized := normalize_title M v
      if normalized ≠ [] then some normalized
      else some (pyLowerStr M (pyStrip M v))

/-- Embedding of build_override_key: the pipe-joined key, None when any slug
component is missing. -/
def build_override_key (year : Nat) (division_slug band_slug piece_slug : Option PyStr) :
    Option PyStr :=
  match division_slug, band_slug, piece_slug with
  | some d, some b, some p =>
    some (natToStr year ++ pys "|" ++ d ++ pys "|" ++ b ++ pys "|" ++ p)
  | _, _, _ => none

/-- One loaded override entry: its allowed output fields and the parts of its
meta dictionary that are read after loading (year, the original division,
band and piece values for leftover serialization, and the optional band_type
filter; the stored slugs are never read back). -/
structure OverrideEntry where
  fields : PyDict
  meta_year : Nat
  meta_division : Val := Val.vnone
  meta_band : Val := Val.vnone
  meta_piece : Val := Val.vnone
  meta_band_type : Option PyStr := none
deriving DecidableEq

/-- State of StreamingOverrideResolver: the keyed override table in insertion
order, the set of applied keys, and the run's band type. -/
structure StreamingOverrideResolver where
  overrides : List (PyStr × OverrideEntry)
  applied_keys : Finset PyStr
  band_type : PyStr
deriving DecidableEq

/-- Embedding of StreamingOverrideResolver.lookup, returning the optional
field table together with the successor resolver state: a hit whose band_type
filter does not exclude the run marks the key applied and returns the fields;
a band_type mismatch returns None without consuming. -/
def StreamingOverrideResolver.lookup (M : CharModel) (r : StreamingOverrideResolver)
    (performance : Performance) : Option PyDict × StreamingOverrideResolver :=
  let division_slug := make_lookup_slug M (some performance.division)
  let band_slug := make_lookup_slug M (some performance.band)
  let piece_slug := make_lookup_slug M (some performance.piece)
  match build_override_key performance.year division_slug band_slug piece_slug with
  | none => (none, r)
  | some key =>
    match r.overrides.find? (fun p => p.1 == key) with
    | none => (none, r)
    | some pr =>
      match pr.2.meta_band_type with
      | some bt =>
        if bt ≠ r.band_type then (none, r)
        else (some pr.2.fields, { r with applied_keys := insert key r.applied_keys })
      | none => (some pr.2.fields, { r with applied_keys := insert key r.applied_keys })

/-- Key and entry pairs surviving the filters of remaining_entries: key not
yet applied, band_type filter compatible, and meta year equal to the year
filter when one is given. -/
def remainingPairs (r : StreamingOverrideResolver) (year : Option Nat) :
    List (PyStr × OverrideEntry) :=
  r.overrides.filter (fun p =>
    decide (p.1 ∉ r.applied_keys) &&
    (match p.2.meta_band_type with
     | some bt => decide (bt = r.band_type)
     | none => true) &&
    (match year with
     | some y => decide (p.2.meta_year = y)
     | none => true))

/-- Embedding of StreamingOverrideResolver.remaining_entries, which returns
the surviving entries themselves. -/
def StreamingOverrideResolver.remaining_entries (r : StreamingOverrideResolver)
    (year : Option Nat) : List OverrideEntry :=
  (remainingPairs r year).map (fun p => p.2)

/-- Python string comparison, lexicographic on code points. -/
def pyStrLt : PyStr → PyStr → Bool
  | [], [] => false
  | [], _ :: _ => true
  | _ :: _, [] => false
  | a :: as, b :: bs => if a = b then pyStrLt as bs else decide (a.toNat < b.toNat)

/-- Sort key of the output entries: (year, division, band, result_piece) with
the defaults and str() conversions the source applies. -/
def entrySortKey (e : PyDict) : Nat × PyStr × PyStr × PyStr :=
  (match dictGet e (pys "year") with | some (Val.vnat n) => n | _ => 0,
   match dictGet e (pys "division") with | some v => pyStrOfVal v | none => [],
   match dictGet e (pys "band") with | some v => pyStrOfVal v | none => [],
   match dictGet e (pys "result_piece") with | some v => pyStrOfVal v | none => [])

/-- Lexicographic order on the sort keys (a total preorder, so the stable
merge sort below produces the same list as Python's stable list.sort). -/
def entryKeyLe (x y : PyDict) : Bool :=
  let k1 := entrySortKey x
  let k2 := entrySortKey y
  if k1.1 ≠ k2.1 then decide (k1.1 < k2.1)
  else if k1.2.1 ≠ k2.2.1 then pyStrLt k1.2.1 k2.2.1
  else if k1.2.2.1 ≠ k2.2.2.1 then pyStrLt k1.2.2.1 k2.2.2.1
  else if k1.2.2.2 ≠ k2.2.2.2 then pyStrLt k1.2.2.2 k2.2.2.2
  else true

/-- Matching pass at the start of build_year_streaming_entries: one
StreamingMatch per performance, each provider consulted only when its client
exists. -/
def buildMatches (M : CharModel) (F : StreamingLinkFinder)
    (performances : List Performance) : List StreamingMatch :=
  performances.map (fun p =>
    StreamingMatch.mk p
      (match F.spotify with | some _ => F.match_spotify M p | none => none)
      (match F.apple_music with | some _ => F.match_apple M p | none => none))

/-- Serialisation step of build_year_streaming_entries for one match: skip a
match with no track at all (before consulting the overrides), merge the
override fields other than allow_album_mismatch over the to_dict entry, and
apply the output-stage year gate (the album string must be truthy and contain
the literal year token) unless allow_album_mismatch is set. -/
def autoStep (M : CharModel) (year : Nat)
    (st : List PyDict × StreamingOverrideResolver) (m : StreamingMatch) :
    List PyDict × StreamingOverrideResolver :=
  if m.spotify = none ∧ m.apple_music = none then st
  else
    let entry0 := m.to_dict
    let lk := st.2.lookup M m.performance
    let allow_mismatch :=
      match lk.1 with
      | some ov => pyTruthy (dictGet ov (pys "allow_album_mismatch"))
      | none => false
    let entry1 :=
      match lk.1 with
      | some ov => ov.foldl
          (fun e kv => if kv.1 = pys "allow_album_mismatch" then e else dictSet e kv.1 kv.2)
          entry0
      | none => entry0
    if allow_mismatch then (st.1 ++ [entry1], lk.2)
    else
      let album_text := pyStrOr (dictGet entry1 (pys "album"))
      if album_text = [] ∨ ¬ containsSub album_text (natToStr year) then (st.1, lk.2)
      else (st.1 ++ [entry1], lk.2)

/-- Leftover pass of build_year_streaming_entries: unconsumed overrides for
the year are emitted when they carry a truthy provider URL and pass the same
output-stage year gate (unless allow_album_mismatch). -/
def leftoverEntries (year : Nat) (r : StreamingOverrideResolver) : List PyDict :=
  (remainingPairs r (some year)).foldl (fun acc p =>
    let fields := p.2.fields
    if ¬ (pyTruthy (dictGet fields (pys "spotify")) ||
          pyTruthy (dictGet fields (pys "apple_music"))) then acc
    else
      let album_value := dictGet fields (pys "album")
      let allow_mismatch := pyTruthy (dictGet fields (pys "allow_album_mismatch"))
      let album_text := pyStrOr album_value
      if ¬ allow_mismatch ∧ (album_text = [] ∨ ¬ containsSub album_text (natToStr year)) then acc
      else
        let entry0 : PyDict :=
          [(pys "year", Val.vnat p.2.meta_year),
           (pys "division", p.2.meta_division),
           (pys "band", p.2.meta_band),
           (pys "result_piece", p.2.meta_piece),
           (pys "recording_title", (dictGet fields (pys "recording_title")).getD Val.vnone),
           (pys "album", album_value.getD Val.vnone),
           (pys "spotify", (dictGet fields (pys "spotify")).getD Val.vnone),
           (pys "apple_music", (dictGet fields (pys "apple_music")).getD Val.vnone)]
        let entry1 := match dictGet fields (pys "alternate_result_piece_slugs") with
          | some v => entry0 ++ [(pys "alternate_result_piece_slugs", v)]
          | none => entry0
        acc ++ [entry1])
    []

/-- Embedding of build_year_streaming_entries: serialise the accepted
matches with override merging and the output-stage year gate, append the
leftover override entries, and sort stably by (year, division, band,
result_piece). -/
def build_year_streaming_entries (M : CharModel) (year : Nat)
    (performances : List Performance) (F : StreamingLinkFinder)
    (resolver : StreamingOverrideResolver) : List PyDict :=
  let matchList := buildMatches M F performances
  let auto := matchList.foldl (autoStep M year) ([], resolver)
  let serialised := auto.1 ++ leftoverEntries year auto.2
  serialised.mergeSort entryKeyLe

/-- Target year selection of generate_streaming_links: the years present in
the dataset, restricted by min_year, the explicit year list (ignored when
falsy, that is None or empty), and the optional start and end bounds. -/
def targetYears (performances : List Performance) (min_year : Nat)
    (years : Option (List Nat)) (start_year end_year : Option Nat) : Finset Nat :=
  let available := (performances.map (fun p => p.year)).toFinset
  let t0 := available.filter (fun y => min_year ≤ y)
  let t1 := match years with
    | some ys => if ys = [] then t0 else t0.filter (fun y => y ∈ ys)
    | none => t0
  let t2 := match start_year with
    | some s => t1.filter (fun y => s ≤ y)
    | none => t1
  match end_year with
  | some e => t2.filter (fun y => y ≤ e)
  | none => t2

/-- Outcome of one invocation of generate_streaming_links, as far as
matching and per-year files are concerned: an early return with no
performances, with no matching year, or with more than one target year
(the multi-year guard), or a completed run carrying the per-year entry lists
that were written. -/
inductive RunOutcome where
  | noPerformances
  | noYears
  | multiYearGuard
  | ran (written : List (Nat × List PyDict))
deriving DecidableEq

/-- Embedding of the control flow of generate_streaming_links after the
dataset has been loaded: the client construction, credential loading, cache
persistence and file writing are I/O and do not influence which entries are
computed; matching happens only in the final branch.  With a single target
year the loop body runs once, so passing the resolver unchanged to it is the
source's behaviour. -/
def generate_streaming_links (M : CharModel) (performances : List Performance)
    (F : StreamingLinkFinder) (resolver : StreamingOverrideResolver)
    (min_year : Nat) (years : Option (List Nat)) (start_year end_year : Option Nat) :
    RunOutcome :=
  if performances = [] then RunOutcome.noPerformances
  else
    let targets := targetYears performances min_year years start_year end_year
    if targets = ∅ then RunOutcome.noYears
    else if targets.card ≠ 1 then RunOutcome.multiYearGuard
    else
      RunOutcome.ran ((targets.sort (fun a b => a ≤ b)).map (fun y =>
        (y, build_year_streaming_entries M y (performances.filter (fun p => p.year = y))
          F resolver)))

/-! Concrete fixtures used by counterexamples and witnesses.  They model a
target year 2023, division Elite, wind-band run against a small Spotify
catalog; all strings are ASCII, where asciiModel agrees with CPython. -/

/-- Empty override resolver for a wind run. -/
def emptyResolver : StreamingOverrideResolver :=
  { overrides := [], applied_keys := ∅, band_type := pys "wind" }

/-- Performance used by the order-dependence counterexample. -/
def c1perf : Performance :=
  { year := 2023, division := pys "Elite", band := pys "Testband", piece := pys "Elegy" }

/-- First of two same-name, same-score albums, returned for the bare search
term NM Janitsjar 2023. -/
def c1albumA : Album :=
  { name := some (pys "NM Janitsjar 2023 Elitedivisjon"),
    release_date := some (pys "2023-04-01"),
    album_type := some (pys "album"),
    id := some (pys "A") }

/-- Second album, identical except for its id, returned for the search term
NM Janitsjar 2023 Elite; it ties with the first at relevance 472. -/
def c1albumB : Album :=
  { name := some (pys "NM Janitsjar 2023 Elitedivisjon"),
    release_date := some (pys "2023-04-01"),
    album_type := some (pys "album"),
    id := some (pys "B") }

/-- Catalog: the two tying albums live behind two different search terms, and
each album carries one track whose title equals the performed piece but whose
track id and URL differ. -/
def c1provider : SpotifyProvider :=
  { searchAlbums := fun t =>
      if t = pys "NM Janitsjar 2023" then [c1albumA]
      else if t = pys "NM Janitsjar 2023 Elite" then [c1albumB]
      else [],
    cachedAlbumTracks := fun _ => none,
    fetchAlbumTracks := fun aid =>
      if aid = pys "A" then
        [{ id := some (pys "ta"), name := some (pys "Elegy"),
           spotifyUrl := some (pys "https://open.spotify.com/track/ta") }]
      else if aid = pys "B" then
        [{ id := some (pys "tb"), name := some (pys "Elegy"),
           spotifyUrl := some (pys "https://open.spotify.com/track/tb") }]
      else [] }

/-- One enumeration of the search-term set for (2023, Elite, wind). -/
def c1order1 : List PyStr :=
  [pys "NM Janitsjar 2023",
   pys "NM Janitsjar 2023 Elitedivisjon",
   pys "NM Janitsjar 2023 Elitedivisjon (Live)",
   pys "NM Janitsjar 2023 – Elitedivisjon (Live)",
   pys "NM Janitsjar 2023 - Elitedivisjon",
   pys "NM Janitsjar 2023 Elite",
   pys "NM Janitsjar 2023 Elite (Live)",
   pys "NM Janitsjar 2023 – Elite (Live)",
   pys "NM Janitsjar 2023 - Elite"]

/-- The reverse enumeration of the same set. -/
def c1order2 : List PyStr := c1order1.reverse

/-- Finder running against the counterexample catalog with a chosen term
issuing order. -/
def c1finder (o : List PyStr) : StreamingLinkFinder :=
  { spotify := some c1provider, apple_music := none,
    band_type := pys "wind", termOrder := fun _ _ => o }

/-- Album whose parsed release year is the target 2023 but whose name carries
no literal year token. -/
def c2album : Album :=
  { name := some (pys "NM Janitsjar Elitedivisjon"),
    release_date := some (pys "2023-04-01"),
    album_type := some (pys "album"),
    id := some (pys "C") }

/-- Catalog for the output-stage year gate counterexample. -/
def c2provider : SpotifyProvider :=
  { searchAlbums := fun t => if t = pys "NM Janitsjar 2023" then [c2album] else [],
    cachedAlbumTracks := fun _ => none,
    fetchAlbumTracks := fun aid =>
      if aid = pys "C" then
        [{ id := some (pys "tc"), name := some (pys "Elegy"),
           spotifyUrl := some (pys "https://open.spotify.com/track/tc") }]
      else [] }

/-- Finder for the output-stage year gate counterexample. -/
def c2finder : StreamingLinkFinder :=
  { spotify := some c2provider, apple_music := none,
    band_type := pys "wind", termOrder := fun _ _ => c1order1 }

/-- The track the matcher accepts in the year-gate counterexample. -/
def c2track : Track :=
  { platform := pys "spotify", title := pys "Elegy", slug := pys "elegy",
    slug_variants := [pys "elegy"], url := pys "https://open.spotify.com/track/tc",
    album := pys "NM Janitsjar Elitedivisjon", album_id := pys "C",
    artist := [], match_score := 1 }

set_option maxRecDepth 20000

/-- Claim C10: StreamingMatch.to_dict draws the representative
recording_title and album from the Spotify track whenever one is present
(Spotify preferred over Apple Music), from the single present track
otherwise, and emits None for both when no track is present, while the two
provider URL fields are always taken independently from their own tracks. -/
theorem to_dict_representative_spec (p : Performance) (s a : Track) :
    (dictGet (StreamingMatch.to_dict ⟨p, some s, some a⟩) (pys "recording_title")
        = some (Val.vstr s.title) ∧
     dictGet (StreamingMatch.to_dict ⟨p, some s, some a⟩) (pys "album")
        = some (Val.vstr s.album) ∧
     dictGet (StreamingMatch.to_dict ⟨p, some s, some a⟩) (pys "spotify")
        = some (Val.vstr s.url) ∧
     dictGet (StreamingMatch.to_dict ⟨p, some s, some a⟩) (pys "apple_music")
        = some (Val.vstr a.url)) ∧
    (dictGet (StreamingMatch.to_dict ⟨p, some s, none⟩) (pys "recording_title")
        = some (Val.vstr s.title) ∧
     dictGet (StreamingMatch.to_dict ⟨p, some s, none⟩) (pys "album")
        = some (Val.vstr s.album) ∧
     dictGet (StreamingMatch.to_dict ⟨p, some s, none⟩) (pys "spotify")
        = some (Val.vstr s.url) ∧
     dictGet (StreamingMatch.to_dict ⟨p, some s, none⟩) (pys "apple_music")
        = some Val.vnone) ∧
    (dictGet (StreamingMatch.to_dict ⟨p, none, some a⟩) (pys "recording_title")
        = some (Val.vstr a.title) ∧
     dictGet (StreamingMatch.to_dict ⟨p, none, some a⟩) (pys "album")
        = some (Val.vstr a.album) ∧
     dictGet (StreamingMatch.to_dict ⟨p, none, some a⟩) (pys "spotify")
        = some Val.vnone ∧
     dictGet (StreamingMatch.to_dict ⟨p, none, some a⟩) (pys "apple_music")
        = some (Val.vstr a.url)) ∧
    (dictGet (StreamingMatch.to_dict ⟨p, none, none⟩) (pys "recording_title")
        = some Val.vnone ∧
     dictGet (StreamingMatch.to_dict ⟨p, none, none⟩) (pys "album")
        = some Val.vnone ∧
     dictGet (StreamingMatch.to_dict ⟨p, none, none⟩) (pys "spotify")
        = some Val.vnone ∧
     dictGet (StreamingMatch.to_dict ⟨p, none, none⟩) (pys "apple_music")
        = some Val.vnone) := by
  refine ⟨⟨?_, ?_, ?_, ?_⟩, ⟨?_, ?_, ?_, ?_⟩, ⟨?_, ?_, ?_, ?_⟩, ⟨?_, ?_, ?_, ?_⟩⟩ <;>
    with_unfolding_all rfl

/-- Claim C1 counterexample: two enumerations of the very same search-term
set for (2023, Elite, wind), run against identical dataset, override table
and catalog, produce different per-year output: the candidate-album stable
sort ties at relevance 472 and the matcher's first-wins tie break then picks
the track of whichever tying album was collected first, so the emitted
spotify URL differs.  The term enumeration order is Python set iteration
order, which is not determined by the inputs the claim lists. -/
theorem build_year_entries_order_dependent :
    IsTermOrder asciiModel 2023 (pys "Elite") (pys "wind") c1order1 ∧
    IsTermOrder asciiModel 2023 (pys "Elite") (pys "wind") c1order2 ∧
    build_year_streaming_entries asciiModel 2023 [c1perf] (c1finder c1order1) emptyResolver ≠
      build_year_streaming_entries asciiModel 2023 [c1perf] (c1finder c1order2) emptyResolver := by
  refine ⟨⟨of_decide_eq_true ?_, of_decide_eq_true ?_⟩,
    ⟨of_decide_eq_true ?_, of_decide_eq_true ?_⟩, of_decide_eq_false ?_⟩ <;>
    with_unfolding_all rfl

/-- Claim C2 counterexample: a track from an album whose parsed release year
equals the target year 2023 but whose name contains no literal 2023 token is
accepted by the matcher (so it passed the collection-stage gate through its
release date), yet the output-stage gate of build_year_streaming_entries
drops the record, because that gate tests only the literal year token in the
album string.  The claim says the record passes the gate. -/
theorem output_year_gate_drops_release_year_match :
    c2album.release_date = some (pys "2023-04-01") ∧
    c2finder.match_spotify asciiModel c1perf = some c2track ∧
    build_year_streaming_entries asciiModel 2023 [c1perf] c2finder emptyResolver = [] := by
  refine ⟨rfl, ?_, ?_⟩ <;> with_unfolding_all rfl

/-- Claim C6 counterexample: similarity_score is not symmetric; on the slug
pair ab and ba-b the SequenceMatcher ratio matches two characters in one
direction but only one in the other, giving scores 2/3 and 1/3. -/
theorem similarity_score_asymmetric_example :
    similarity_score (pys "ab") (pys "ba-b") = 2 / 3 ∧
    similarity_score (pys "ba-b") (pys "ab") = 1 / 3 ∧
    similarity_score (pys "ab") (pys "ba-b") ≠ similarity_score (pys "ba-b") (pys "ab") := by
  refine ⟨?_, ?_, of_decide_eq_false ?_⟩ <;> with_unfolding_all rfl

/-- Claim C9: for target year 2023 and division Elite, the album named
NM Janitsjar 2023 Elitedivisjon (Live) outscores the album named
NM Janitsjar 2022 Elitedivisjon under the additive weighting, whatever
common release date and album type the two records carry: the name of the
first earns the +100 year token and +5 live bonuses that the second lacks,
and the release-year and album-type contributions coincide. -/
theorem album_relevance_year_division_dominates (rd ty : Option PyStr) :
    score_album_relevance asciiModel
        { name := some (pys "NM Janitsjar 2022 Elitedivisjon"),
          release_date := rd, album_type := ty } 2023 (pys "Elite") <
      score_album_relevance asciiModel
        { name := some (pys "NM Janitsjar 2023 Elitedivisjon (Live)"),
          release_date := rd, album_type := ty } 2023 (pys "Elite") := by
  have hA : pyOrStr (some (pys "NM Janitsjar 2023 Elitedivisjon (Live)")) (pyOrStr none []) =
      pys "NM Janitsjar 2023 Elitedivisjon (Live)" := by with_unfolding_all rfl
  have hB : pyOrStr (some (pys "NM Janitsjar 2022 Elitedivisjon")) (pyOrStr none []) =
      pys "NM Janitsjar 2022 Elitedivisjon" := by with_unfolding_all rfl
  have a2 : containsSub (pyLowerStr asciiModel (pys "NM Janitsjar 2023 Elitedivisjon (Live)"))
      (natToStr 2023) = true := by with_unfolding_all rfl
  have b2 : containsSub (pyLowerStr asciiModel (pys "NM Janitsjar 2022 Elitedivisjon"))
      (natToStr 2023) = false := by with_unfolding_all rfl
  have a3 : (get_division_tokens asciiModel (pys "Elite")).any
      (fun t => containsSub (pyLowerStr asciiModel (pys "NM Janitsjar 2023 Elitedivisjon (Live)")) t)
      = true := by with_unfolding_all rfl
  have b3 : (get_division_tokens asciiModel (pys "Elite")).any
      (fun t => containsSub (pyLowerStr asciiModel (pys "NM Janitsjar 2022 Elitedivisjon")) t)
      = true := by with_unfolding_all rfl
  have a4 : [pys "nm brass", pys "nm janitsjar", pys "norgesmesterskap"].any
      (fun t => containsSub (pyLowerStr asciiModel (pys "NM Janitsjar 2023 Elitedivisjon (Live)")) t)
      = true := by with_unfolding_all rfl
  have b4 : [pys "nm brass", pys "nm janitsjar", pys "norgesmesterskap"].any
      (fun t => containsSub (pyLowerStr asciiModel (pys "NM Janitsjar 2022 Elitedivisjon")) t)
      = true := by with_unfolding_all rfl
  have a5 : (containsSub (pyLowerStr asciiModel (pys "NM Janitsjar 2023 Elitedivisjon (Live)"))
      (pys "live") ||
      containsSub (pyLowerStr asciiModel (pys "NM Janitsjar 2023 Elitedivisjon (Live)"))
      (pys "(live)")) = true := by with_unfolding_all rfl
  have b5 : (containsSub (pyLowerStr asciiModel (pys "NM Janitsjar 2022 Elitedivisjon"))
      (pys "live") ||
      containsSub (pyLowerStr asciiModel (pys "NM Janitsjar 2022 Elitedivisjon"))
      (pys "(live)")) = false := by with_unfolding_all rfl
  unfold score_album_relevance
  simp only [hA, hB, a2, b2, a3, b3, a4, b4, a5, b5, if_true, if_false,
    Bool.false_eq_true, Bool.true_eq_false]
  split <;> split <;> split <;> norm_num

set_option maxRecDepth 512

/-- Claim C5: whenever the year filters of generate_streaming_links resolve
to more than one target year, the run takes the multi-year guard branch:
no per-year entries are computed and no per-year file is written (the
matching pipeline is only invoked in the final branch the guard precludes). -/
theorem multi_year_guard_spec (M : CharModel) (performances : List Performance)
    (F : StreamingLinkFinder) (resolver : StreamingOverrideResolver)
    (min_year : Nat) (years : Option (List Nat)) (start_year end_year : Option Nat)
    (h : 1 < (targetYears performances min_year years start_year end_year).card) :
    generate_streaming_links M performances F resolver min_year years start_year end_year =
      RunOutcome.multiYearGuard := by
  have hne : performances ≠ [] := by
    rintro rfl
    have h0 : targetYears [] min_year years start_year end_year = ∅ := by
      unfold targetYears
      cases years with
      | none => cases start_year <;> cases end_year <;> simp
      | some ys =>
        cases start_year <;> cases end_year <;> by_cases hys : ys = [] <;> simp [hys]
    rw [h0] at h
    simp at h
  have hnee : targetYears performances min_year years start_year end_year ≠ ∅ := by
    intro h0
    rw [h0] at h
    simp at h
  unfold generate_streaming_links
  rw [if_neg hne]
  simp only [hnee, if_false, if_neg hnee]
  rw [if_pos (by omega)]

/-- Claim C6 amended: similarity_score is symmetric in its special cases and
in the token-overlap and substring components, hence symmetric whenever the
underlying SequenceMatcher ratio happens to be symmetric for the pair; the
ratio itself, and with it the whole score, is order-dependent in general. -/
theorem similarity_score_symmetric_of_ratio_symmetric (a b : PyStr)
    (h : seqRatioQ a b = seqRatioQ b a) :
    similarity_score a b = similarity_score b a := by
  unfold similarity_score
  by_cases ha : a = []
  · rw [if_pos (Or.inl ha), if_pos (Or.inr ha)]
  · by_cases hb : b = []
    · rw [if_pos (Or.inr hb), if_pos (Or.inl hb)]
    · rw [if_neg (show ¬(a = [] ∨ b = []) from by tauto),
          if_neg (show ¬(b = [] ∨ a = []) from by tauto)]
      by_cases hab : a = b
      · rw [if_pos hab, if_pos hab.symm]
      · rw [if_neg hab, if_neg (fun e => hab e.symm)]
        simp only [h, Finset.inter_comm, Nat.max_comm, Bool.or_comm, or_comm]

/-- Witness for the amended C6 theorem at a concrete ratio-symmetric pair. -/
theorem similarity_score_symmetric_witness :
    seqRatioQ (pys "ax") (pys "by") = seqRatioQ (pys "by") (pys "ax") ∧
    similarity_score (pys "ax") (pys "by") = similarity_score (pys "by") (pys "ax") :=
  have h : seqRatioQ (pys "ax") (pys "by") = seqRatioQ (pys "by") (pys "ax") := by
    with_unfolding_all rfl
  ⟨h, similarity_score_symmetric_of_ratio_symmetric (pys "ax") (pys "by") h⟩

/-- Specification of the selection fold of matchBest: the running best score
never decreases, every processed candidate's combined score is dominated by
the final best score, and the final state is either the starting state or the
pair of some processed candidate and its combined score. -/
theorem matchFold_spec (M : CharModel) (ps bs : PyStr) :
    ∀ (ts : List Track) (acc : Option Track × ℚ),
      acc.2 ≤ (ts.foldl (matchStep M ps bs) acc).2 ∧
      (∀ v ∈ ts, combinedScore M ps bs v ≤ (ts.foldl (matchStep M ps bs) acc).2) ∧
      (ts.foldl (matchStep M ps bs) acc = acc ∨
        ∃ u ∈ ts, ts.foldl (matchStep M ps bs) acc = (some u, combinedScore M ps bs u)) := by
  intro ts
  induction ts with
  | nil =>
    intro acc
    exact ⟨le_refl _, by simp, Or.inl rfl⟩
  | cons t ts ih =>
    intro acc
    have hstep : acc.2 ≤ (matchStep M ps bs acc t).2 ∧
        combinedScore M ps bs t ≤ (matchStep M ps bs acc t).2 ∧
        (matchStep M ps bs acc t = acc ∨
          matchStep M ps bs acc t = (some t, combinedScore M ps bs t)) := by
      simp only [matchStep]
      split
      · next hlt => exact ⟨le_of_lt hlt, le_refl _, Or.inr rfl⟩
      · next hge => exact ⟨le_refl _, le_of_not_lt hge, Or.inl rfl⟩
    obtain ⟨h1, h2, h3⟩ := ih (matchStep M ps bs acc t)
    rw [List.foldl_cons]
    refine ⟨le_trans hstep.1 h1, ?_, ?_⟩
    · intro v hv
      rcases List.mem_cons.mp hv with rfl | hv2
      · exact le_trans hstep.2.1 h1
      · exact h2 v hv2
    · rcases h3 with h3 | ⟨u, hu, h3⟩
      · rcases hstep.2.2 with h4 | h4
        · exact Or.inl (h3.trans h4)
        · exact Or.inr ⟨t, List.mem_cons_self t ts, h3.trans h4⟩
      · exact Or.inr ⟨u, List.mem_cons_of_mem t hu, h3⟩

/-- Claim C3: the matcher returns a track only when a candidate attains the
maximal combined score over the list and that score reaches the 0.65
threshold, stamping the score into the returned record; when every combined
score is below 0.65 it returns none; consequently match_spotify and
match_apple never return a track whose stamped combined score is below
0.65. -/
theorem matcher_threshold_spec (M : CharModel) (piece_slug band_slug : PyStr)
    (tracks : List Track) :
    (∀ t, matchBest M piece_slug band_slug tracks = some t →
      ∃ u ∈ tracks, t = { u with match_score := combinedScore M piece_slug band_slug u } ∧
        65 / 100 ≤ combinedScore M piece_slug band_slug u ∧
        ∀ v ∈ tracks,
          combinedScore M piece_slug band_slug v ≤ combinedScore M piece_slug band_slug u) ∧
    ((∀ v ∈ tracks, combinedScore M piece_slug band_slug v < 65 / 100) →
      matchBest M piece_slug band_slug tracks = none) ∧
    (∀ (F : StreamingLinkFinder) (p : Performance) (t : Track),
      F.match_spotify M p = some t → 65 / 100 ≤ t.match_score) ∧
    (∀ (F : StreamingLinkFinder) (p : Performance) (t : Track),
      F.match_apple M p = some t → 65 / 100 ≤ t.match_score) := by
  have main : ∀ (psl bsl : PyStr) (ts : List Track) (t : Track),
      matchBest M psl bsl ts = some t →
      ∃ u ∈ ts, t = { u with match_score := combinedScore M psl bsl u } ∧
        65 / 100 ≤ combinedScore M psl bsl u ∧
        ∀ v ∈ ts, combinedScore M psl bsl v ≤ combinedScore M psl bsl u := by
    intro psl bsl ts t hsome
    simp only [matchBest] at hsome
    obtain ⟨h1, h2, h3⟩ := matchFold_spec M psl bsl ts ((none : Option Track), (0 : ℚ))
    rcases hfold : ts.foldl (matchStep M psl bsl) ((none : Option Track), (0 : ℚ)) with ⟨ot, s⟩
    rw [hfold] at hsome h1 h2 h3
    cases ot with
    | none => simp at hsome
    | some u =>
      rcases h3 with h3 | ⟨w, hw, h3⟩
      · simp at h3
      · have h31 : (some u : Option Track) = some w := congrArg Prod.fst h3
        obtain rfl : u = w := Option.some_injective _ h31
        have h32 : s = combinedScore M psl bsl u := congrArg Prod.snd h3
        subst h32
        simp only at hsome
        split at hsome
        · next hth =>
          exact ⟨u, hw, (Option.some_injective _ hsome).symm, hth, fun v hv => h2 v hv⟩
        · exact absurd hsome (by simp)
  refine ⟨main piece_slug band_slug tracks, ?_, ?_, ?_⟩
  · intro hlt
    simp only [matchBest]
    obtain ⟨h1, h2, h3⟩ :=
      matchFold_spec M piece_slug band_slug tracks ((none : Option Track), (0 : ℚ))
    rcases hfold : tracks.foldl (matchStep M piece_slug band_slug)
        ((none : Option Track), (0 : ℚ)) with ⟨ot, s⟩
    rw [hfold] at h3
    cases ot with
    | none => simp
    | some u =>
      rcases h3 with h3 | ⟨w, hw, h3⟩
      · simp at h3
      · have hs : s = combinedScore M piece_slug band_slug w := congrArg Prod.snd h3
        have hlt2 : s < 65 / 100 := hs ▸ hlt w hw
        simp only
        rw [if_neg (not_le.mpr hlt2)]
  · intro F p t hsp
    simp only [StreamingLinkFinder.match_spotify] at hsp
    split at hsp
    · simp at hsp
    · obtain ⟨u, _, ht, hth, _⟩ := main _ _ _ _ hsp
      rw [ht]
      exact hth
  · intro F p t hap
    simp only [StreamingLinkFinder.match_apple] at hap
    split at hap
    · simp at hap
    · obtain ⟨u, _, ht, hth, _⟩ := main _ _ _ _ hap
      rw [ht]
      exact hth

/-- Witness for the C3 theorem: a single candidate whose slug equals the
piece slug is returned with stamped score 1, which the theorem then bounds by
the threshold. -/
theorem matcher_threshold_witness :
    ∃ u ∈ [c2track], ({ c2track with match_score := (1 : ℚ) } : Track) =
        { u with match_score := combinedScore asciiModel (pys "elegy") [] u } ∧
      65 / 100 ≤ combinedScore asciiModel (pys "elegy") [] u ∧
      ∀ v ∈ [c2track], combinedScore asciiModel (pys "elegy") [] v ≤
        combinedScore asciiModel (pys "elegy") [] u :=
  (matcher_threshold_spec asciiModel (pys "elegy") [] [c2track]).1
    { c2track with match_score := (1 : ℚ) } (by with_unfolding_all rfl)

/-- Resolver state after a sequence of lookups (the rest of a run). -/
def foldLookups (M : CharModel) (r : StreamingOverrideResolver)
    (ps : List Performance) : StreamingOverrideResolver :=
  ps.foldl (fun st q => (StreamingOverrideResolver.lookup M st q).2) r

/-- A lookup never removes an applied key. -/
theorem lookup_applied_mono (M : CharModel) (r : StreamingOverrideResolver)
    (q : Performance) : r.applied_keys ⊆ ((r.lookup M q).2).applied_keys := by
  simp only [StreamingOverrideResolver.lookup]
  split
  · exact Finset.Subset.refl _
  · split
    · exact Finset.Subset.refl _
    · split
      · split
        · exact Finset.Subset.refl _
        · exact Finset.subset_insert _ _
      · exact Finset.subset_insert _ _

/-- Applied keys persist through any further sequence of lookups. -/
theorem foldLookups_applied_mono (M : CharModel) (ps : List Performance) :
    ∀ (r : StreamingOverrideResolver) (k : PyStr), k ∈ r.applied_keys →
      k ∈ (foldLookups M r ps).applied_keys := by
  induction ps with
  | nil => intro r k hk; exact hk
  | cons q ps ih =>
    intro r k hk
    simp only [foldLookups, List.foldl_cons]
    exact ih _ k (lookup_applied_mono M r q hk)

/-- Claim C4: a successful lookup computes the normalized override key of the
performance, marks it consumed in the successor state, that key stays
consumed through every further sequence of lookups of the run, no pair with
that key ever again survives the filters behind remaining_entries (which
returns exactly the entries of the surviving pairs), and repeating the same
successful lookup leaves the applied-key set unchanged, so a key is consumed
at most once per run. -/
theorem override_consumption_spec (M : CharModel) (r : StreamingOverrideResolver)
    (p : Performance) (fields : PyDict) (r2 : StreamingOverrideResolver)
    (h : r.lookup M p = (some fields, r2)) :
    ∃ key, build_override_key p.year (make_lookup_slug M (some p.division))
        (make_lookup_slug M (some p.band)) (make_lookup_slug M (some p.piece)) = some key ∧
      key ∈ r2.applied_keys ∧
      (∀ ps : List Performance, key ∈ (foldLookups M r2 ps).applied_keys) ∧
      (∀ (ps : List Performance) (y : Option Nat),
        ∀ pr ∈ remainingPairs (foldLookups M r2 ps) y, pr.1 ≠ key) ∧
      (∀ (ps : List Performance) (y : Option Nat),
        (foldLookups M r2 ps).remaining_entries y =
          (remainingPairs (foldLookups M r2 ps) y).map (fun pr => pr.2)) ∧
      ((r2.lookup M p).2).applied_keys = r2.applied_keys := by
  simp only [StreamingOverrideResolver.lookup] at h
  split at h
  · exact absurd (congrArg Prod.fst h) (by simp)
  · next key hkey =>
    split at h
    · exact absurd (congrArg Prod.fst h) (by simp)
    · next pr hfind =>
      have hmain : ∀ (hr2 : { r with applied_keys := insert key r.applied_keys } = r2),
          ∃ key2, build_override_key p.year (make_lookup_slug M (some p.division))
              (make_lookup_slug M (some p.band)) (make_lookup_slug M (some p.piece)) = some key2 ∧
            key2 ∈ r2.applied_keys ∧
            (∀ ps : List Performance, key2 ∈ (foldLookups M r2 ps).applied_keys) ∧
            (∀ (ps : List Performance) (y : Option Nat),
              ∀ q ∈ remainingPairs (foldLookups M r2 ps) y, q.1 ≠ key2) ∧
            (∀ (ps : List Performance) (y : Option Nat),
              (foldLookups M r2 ps).remaining_entries y =
                (remainingPairs (foldLookups M r2 ps) y).map (fun q => q.2)) := by
        intro hr2
        refine ⟨key, hkey, ?_, ?_, ?_, ?_⟩
        · rw [← hr2]; exact Finset.mem_insert_self _ _
        · intro ps
          exact foldLookups_applied_mono M ps r2 key
            (by rw [← hr2]; exact Finset.mem_insert_self _ _)
        · intro ps y q hq
          have hmem := List.mem_filter.mp hq
          have hcond := hmem.2
          simp only [Bool.and_eq_true, decide_eq_true_eq] at hcond
          have hnotin : q.1 ∉ (foldLookups M r2 ps).applied_keys := hcond.1.1
          intro hqk
          exact hnotin (hqk ▸ foldLookups_applied_mono M ps r2 key
            (by rw [← hr2]; exact Finset.mem_insert_self _ _))
        · intro ps y
          rfl
      split at h
      · next bt hbt =>
        split at h
        · exact absurd (congrArg Prod.fst h) (by simp)
        · next hbteq =>
          have hfields : some pr.2.fields = some fields := congrArg Prod.fst h
          have hr2 : ({ r with applied_keys := insert key r.applied_keys } :
              StreamingOverrideResolver) = r2 := congrArg Prod.snd h
          obtain ⟨key2, hk2, h1, h2, h3, h4⟩ := hmain hr2
          refine ⟨key2, hk2, h1, h2, h3, h4, ?_⟩
          rw [← hr2]
          simp only [StreamingOverrideResolver.lookup, hkey, hfind, hbt]
          rw [if_neg hbteq]
          simp [Finset.insert_idem]
      · next hbt =>
        have hfields : some pr.2.fields = some fields := congrArg Prod.fst h
        have hr2 : ({ r with applied_keys := insert key r.applied_keys } :
            StreamingOverrideResolver) = r2 := congrArg Prod.snd h
        obtain ⟨key2, hk2, h1, h2, h3, h4⟩ := hmain hr2
        refine ⟨key2, hk2, h1, h2, h3, h4, ?_⟩
        rw [← hr2]
        simp only [StreamingOverrideResolver.lookup, hkey, hfind, hbt]
        simp [Finset.insert_idem]

/-- Override entry used by the consumption witness. -/
def c4entry : OverrideEntry :=
  { fields := [(pys "spotify", Val.vstr (pys "https://open.spotify.com/track/ovr"))],
    meta_year := 2023, meta_division := Val.vstr (pys "Elite"),
    meta_band := Val.vstr (pys "Testband"), meta_piece := Val.vstr (pys "Elegy"),
    meta_band_type := none }

/-- Normalized key of the witness performance. -/
def c4key : PyStr := pys "2023|elite|testband|elegy"

/-- Resolver holding exactly one override, keyed for c1perf. -/
def c4resolver : StreamingOverrideResolver :=
  { overrides := [(c4key, c4entry)], applied_keys := ∅, band_type := pys "wind" }

/-- Witness for the C4 theorem: the lookup of c1perf against c4resolver
succeeds, and the theorem's conclusions hold at that concrete state. -/
theorem override_consumption_witness :
    ∃ key, build_override_key c1perf.year (make_lookup_slug asciiModel (some c1perf.division))
        (make_lookup_slug asciiModel (some c1perf.band))
        (make_lookup_slug asciiModel (some c1perf.piece)) = some key ∧
      key ∈ ({ c4resolver with applied_keys := insert c4key ∅ }
        : StreamingOverrideResolver).applied_keys ∧
      (∀ ps : List Performance, key ∈ (foldLookups asciiModel
        { c4resolver with applied_keys := insert c4key ∅ } ps).applied_keys) ∧
      (∀ (ps : List Performance) (y : Option Nat),
        ∀ pr ∈ remainingPairs (foldLookups asciiModel
          { c4resolver with applied_keys := insert c4key ∅ } ps) y, pr.1 ≠ key) ∧
      (∀ (ps : List Performance) (y : Option Nat),
        (foldLookups asciiModel { c4resolver with applied_keys := insert c4key ∅ } ps).remaining_entries y =
          (remainingPairs (foldLookups asciiModel
            { c4resolver with applied_keys := insert c4key ∅ } ps) y).map (fun pr => pr.2)) ∧
      ((({ c4resolver with applied_keys := insert c4key ∅ }
          : StreamingOverrideResolver).lookup asciiModel c1perf).2).applied_keys =
        ({ c4resolver with applied_keys := insert c4key ∅ }
          : StreamingOverrideResolver).applied_keys :=
  override_consumption_spec asciiModel c4resolver c1perf c4entry.fields
    { c4resolver with applied_keys := insert c4key ∅ } (by with_unfolding_all rfl)

/-- Witness for the C5 guard at a dataset spanning two target years. -/
theorem multi_year_guard_witness :
    generate_streaming_links asciiModel
      [{ year := 2020, division := pys "Elite", band := pys "A", piece := pys "P" },
       { year := 2021, division := pys "Elite", band := pys "A", piece := pys "P" }]
      (c1finder c1order1) emptyResolver 0 none none none = RunOutcome.multiYearGuard :=
  multi_year_guard_spec asciiModel _ _ _ _ _ _ _ (of_decide_eq_true (by with_unfolding_all rfl))

/-! Bounds on the SequenceMatcher ratio.  The dynamic program and widening
loops only ever produce blocks lying inside the searched ranges, so the total
number of matched characters is at most the length of either range and the
ratio lies in [0, 1]. -/

/-- Well-formedness of a matching block relative to the searched ranges. -/
def BlkIn (alo ahi blo bhi : Nat) (blk : MatchBlock) : Prop :=
  alo ≤ blk.besti ∧ blk.besti + blk.size ≤ ahi ∧
    blo ≤ blk.bestj ∧ blk.bestj + blk.size ≤ bhi

theorem BlkIn.intro' {alo ahi blo bhi bi bj sz : Nat} (h1 : alo ≤ bi)
    (h2 : bi + sz ≤ ahi) (h3 : blo ≤ bj) (h4 : bj + sz ≤ bhi) :
    BlkIn alo ahi blo bhi ⟨bi, bj, sz⟩ :=
  ⟨h1, h2, h3, h4⟩

/-- Invariant of the j2len association list while processing row i: every
recorded diagonal run ends inside the b-range and is no longer than the
space available to its left in either range. -/
def RowInv (alo blo bhi i : Nat) (l : List (Nat × Nat)) : Prop :=
  ∀ e ∈ l, blo ≤ e.1 ∧ e.1 < bhi ∧ e.2 + blo ≤ e.1 + 1 ∧ e.2 + alo ≤ i

theorem j2lenGet_bound (alo blo bhi i : Nat) (old : List (Nat × Nat))
    (hold : RowInv alo blo bhi i old) (hi1 : alo ≤ i) (j : Nat) (hj : blo ≤ j) :
    j2lenGet old j + blo ≤ j ∧ j2lenGet old j + alo ≤ i := by
  unfold j2lenGet
  by_cases hj0 : j = 0
  · simp only [hj0, if_true]
    omega
  · simp only [hj0, if_false]
    cases hfind : old.find? (fun e => e.1 == j - 1) with
    | none => simp only []; omega
    | some e =>
      have hmem := List.mem_of_find?_eq_some hfind
      have hpe := List.find?_some hfind
      have he1 : e.1 = j - 1 := by simpa using hpe
      obtain ⟨q1, q2, q3, q4⟩ := hold e hmem
      simp only []
      omega

theorem innerLoop_inv (alo ahi i blo bhi : Nat) (old : List (Nat × Nat))
    (hold : RowInv alo blo bhi i old) (hi1 : alo ≤ i) (hi2 : i < ahi) :
    ∀ (js : List Nat) (acc : List (Nat × Nat)) (best : MatchBlock),
      RowInv alo blo bhi (i + 1) acc → BlkIn alo ahi blo bhi best →
      RowInv alo blo bhi (i + 1) (innerLoop i blo bhi old js acc best).1 ∧
      BlkIn alo ahi blo bhi (innerLoop i blo bhi old js acc best).2 := by
  intro js
  induction js with
  | nil => intro acc best hacc hbest; exact ⟨hacc, hbest⟩
  | cons j js ih =>
    intro acc best hacc hbest
    simp only [innerLoop]
    split
    · exact ih acc best hacc hbest
    · split
      · exact ⟨hacc, hbest⟩
      · next hjlo hjhi =>
        have hblo : blo ≤ j := Nat.le_of_not_lt hjlo
        have hbhi : j < bhi := Nat.lt_of_not_le hjhi
        obtain ⟨p1, p2⟩ := j2lenGet_bound alo blo bhi i old hold hi1 j hblo
        apply ih
        · intro e he
          rcases List.mem_cons.mp he with rfl | he2
          · exact ⟨hblo, hbhi, by omega, by omega⟩
          · exact hacc e he2
        · split
          · next hlt => exact BlkIn.intro' (by omega) (by omega) (by omega) (by omega)
          · exact hbest

theorem dpLoop_inv (a : PyStr) (b2j : Char → List Nat) (alo ahi blo bhi : Nat) :
    ∀ (n i : Nat) (j2len : List (Nat × Nat)) (best : MatchBlock),
      alo ≤ i → i + n ≤ ahi → RowInv alo blo bhi i j2len → BlkIn alo ahi blo bhi best →
      BlkIn alo ahi blo bhi (dpLoop a b2j blo bhi i n j2len best) := by
  intro n
  induction n with
  | zero => intro i j2len best _ _ _ hbest; exact hbest
  | succ n ih =>
    intro i j2len best hi1 hi2 hrow hbest
    simp only [dpLoop]
    have hin := innerLoop_inv alo ahi i blo bhi j2len hrow hi1 (by omega)
      (b2j (a.getD i ' ')) [] best (by intro e he; cases he) hbest
    exact ih (i + 1) _ _ (by omega) (by omega)
      (by intro e he; exact hin.1 e he) hin.2

theorem extendLeft_blkIn (a b : PyStr) (alo blo ahi bhi : Nat) :
    ∀ (fuel : Nat) (blk : MatchBlock), BlkIn alo ahi blo bhi blk →
      BlkIn alo ahi blo bhi (extendLeft a b alo blo fuel blk) := by
  intro fuel
  induction fuel with
  | zero => intro blk h; exact h
  | succ fuel ih =>
    intro blk h
    simp only [extendLeft]
    split
    · next hc =>
      obtain ⟨h1, h2, h3, h4⟩ := h
      obtain ⟨hc1, hc2, _⟩ := hc
      exact ih _ (BlkIn.intro' (by omega) (by omega) (by omega) (by omega))
    · exact h

theorem extendRight_blkIn (a b : PyStr) (alo blo ahi bhi : Nat) :
    ∀ (fuel : Nat) (blk : MatchBlock), BlkIn alo ahi blo bhi blk →
      BlkIn alo ahi blo bhi (extendRight a b ahi bhi fuel blk) := by
  intro fuel
  induction fuel with
  | zero => intro blk h; exact h
  | succ fuel ih =>
    intro blk h
    simp only [extendRight]
    split
    · next hc =>
      obtain ⟨h1, h2, h3, h4⟩ := h
      obtain ⟨hc1, hc2, _⟩ := hc
      exact ih _ (BlkIn.intro' (by omega) (by omega) (by omega) (by omega))
    · exact h

theorem findLongestMatch_blkIn (a b : PyStr) (b2j : Char → List Nat)
    (alo ahi blo bhi : Nat) (ha : alo ≤ ahi) (hb : blo ≤ bhi) :
    BlkIn alo ahi blo bhi (findLongestMatch a b b2j alo ahi blo bhi) := by
  unfold findLongestMatch
  apply extendRight_blkIn
  apply extendLeft_blkIn
  exact dpLoop_inv a b2j alo ahi blo bhi (ahi - alo) alo [] ⟨alo, blo, 0⟩
    (le_refl _) (by omega) (by intro e he; cases he)
    (BlkIn.intro' (le_refl _) (by omega) (le_refl _) (by omega))

theorem matchSum_le (a b : PyStr) (b2j : Char → List Nat) :
    ∀ (fuel alo ahi blo bhi : Nat), alo ≤ ahi → blo ≤ bhi →
      matchSum a b b2j fuel alo ahi blo bhi + alo ≤ ahi ∧
      matchSum a b b2j fuel alo ahi blo bhi + blo ≤ bhi := by
  intro fuel
  induction fuel with
  | zero => intro alo ahi blo bhi ha hb; simp only [matchSum]; omega
  | succ fuel ih =>
    intro alo ahi blo bhi ha hb
    simp only [matchSum]
    split
    · omega
    · next hsz =>
      obtain ⟨g1, g2, g3, g4⟩ := findLongestMatch_blkIn a b b2j alo ahi blo bhi ha hb
      obtain ⟨l1, l2⟩ := ih alo (findLongestMatch a b b2j alo ahi blo bhi).besti blo
        (findLongestMatch a b b2j alo ahi blo bhi).bestj (by omega) (by omega)
      obtain ⟨r1, r2⟩ := ih ((findLongestMatch a b b2j alo ahi blo bhi).besti +
          (findLongestMatch a b b2j alo ahi blo bhi).size) ahi
        ((findLongestMatch a b b2j alo ahi blo bhi).bestj +
          (findLongestMatch a b b2j alo ahi blo bhi).size) bhi (by omega) (by omega)
      constructor <;> omega

theorem seqRatioQ_nonneg (a b : PyStr) : 0 ≤ seqRatioQ a b := by
  unfold seqRatioQ
  split
  · norm_num
  · apply div_nonneg
    · positivity
    · positivity

theorem seqRatioQ_le_one (a b : PyStr) : seqRatioQ a b ≤ 1 := by
  unfold seqRatioQ
  split
  · norm_num
  · next hne =>
    have hm := matchSum_le a b (b2jFun b) (a.length + 1) 0 a.length 0 b.length
      (by omega) (by omega)
    have hpos : 0 < a.length + b.length := Nat.pos_of_ne_zero hne
    rw [div_le_one (by exact_mod_cast hpos)]
    have h2 : 2 * matchSum a b (b2jFun b) (a.length + 1) 0 a.length 0 b.length ≤
        a.length + b.length := by omega
    exact_mod_cast h2

theorem similarity_score_nonneg (a b : PyStr) : 0 ≤ similarity_score a b := by
  simp only [similarity_score]
  split
  · norm_num
  · split
    · norm_num
    · refine le_trans ?_ (le_max_left _ _)
      split
      · exact le_trans (seqRatioQ_nonneg a b) (le_max_left _ _)
      · exact seqRatioQ_nonneg a b

theorem similarity_score_le_one (a b : PyStr) : similarity_score a b ≤ 1 := by
  simp only [similarity_score]
  split
  · norm_num
  · split
    · norm_num
    · apply max_le
      · split
        · exact max_le (seqRatioQ_le_one a b) (by norm_num)
        · exact seqRatioQ_le_one a b
      · split
        · norm_num
        · next hne =>
          have htp : (List.splitOn '-' a).toFinset ≠ ∅ := fun h => hne (Or.inl h)
          have hc1 : 1 ≤ (List.splitOn '-' a).toFinset.card :=
            Finset.card_pos.mpr (Finset.nonempty_iff_ne_empty.mpr htp)
          have hle : ((List.splitOn '-' a).toFinset ∩ (List.splitOn '-' b).toFinset).card ≤
              Nat.max (List.splitOn '-' a).toFinset.card (List.splitOn '-' b).toFinset.card :=
            le_trans (Finset.card_le_card Finset.inter_subset_left) (Nat.le_max_left _ _)
          have hmx : 1 ≤ Nat.max (List.splitOn '-' a).toFinset.card
              (List.splitOn '-' b).toFinset.card :=
            le_trans hc1 (Nat.le_max_left _ _)
          rw [div_le_one (by exact_mod_cast hmx : (0 : ℚ) <
            ((Nat.max (List.splitOn '-' a).toFinset.card
              (List.splitOn '-' b).toFinset.card : Nat) : ℚ))]
          exact_mod_cast hle

/-- Claim C8 counterexample: the emptiness rule wins over the equality rule
at the empty slug, so the claimed universal equation score(x, x) = 1.0 fails
at x = the empty slug. -/
theorem similarity_score_empty_empty :
    similarity_score [] [] = 0 ∧ similarity_score [] [] ≠ 1 := by
  constructor
  · with_unfolding_all rfl
  · intro h
    rw [show similarity_score [] [] = 0 from by with_unfolding_all rfl] at h
    exact absurd h (by norm_num)

/-- Claim C8 amended: similarity_score maps equal nonempty slugs to 1, maps
any pair with an empty side to 0 (including both sides empty, where the
emptiness rule precedes the equality rule), and always lies in [0, 1]. -/
theorem similarity_score_corner_cases (x y a b : PyStr) (hx : x ≠ []) :
    similarity_score x x = 1 ∧ similarity_score [] y = 0 ∧ similarity_score y [] = 0 ∧
    0 ≤ similarity_score a b ∧ similarity_score a b ≤ 1 := by
  refine ⟨?_, ?_, ?_, similarity_score_nonneg a b, similarity_score_le_one a b⟩
  · simp [similarity_score, hx]
  · simp [similarity_score]
  · simp [similarity_score]

/-- Witness for the amended C8 theorem at concrete slugs. -/
theorem similarity_score_corner_cases_witness :
    similarity_score (pys "x") (pys "x") = 1 ∧
    similarity_score [] (pys "y") = 0 ∧ similarity_score (pys "y") [] = 0 ∧
    0 ≤ similarity_score (pys "a") (pys "b") ∧
    similarity_score (pys "a") (pys "b") ≤ 1 :=
  similarity_score_corner_cases (pys "x") (pys "y") (pys "a") (pys "b") (by simp [pys])

/-! Idempotence of normalize_title.  The output is the hyphen-join of
nonempty alphanumeric tokens; by the CharModel facts every such character,
and the hyphen, is fixed by each pipeline stage, and retokenizing the join
returns the same tokens. -/

theorem pyTokens_sound_aux (M : CharModel) : ∀ (n : Nat) (w : PyStr), w.length ≤ n →
    ∀ t ∈ pyTokens M w, t ≠ [] ∧ ∀ c ∈ t, M.isAlnum c = true ∧ c ∈ w := by
  intro n
  induction n with
  | zero =>
    intro w hw t ht
    have hwn : w = [] := List.length_eq_zero.mp (Nat.le_zero.mp hw)
    subst hwn
    simp [pyTokens] at ht
  | succ n ih =>
    intro w hw t ht
    cases w with
    | nil => simp [pyTokens] at ht
    | cons c cs =>
      by_cases hc : M.isAlnum c = true
      · rw [show pyTokens M (c :: cs) =
            ((c :: cs).takeWhile M.isAlnum) :: pyTokens M ((c :: cs).dropWhile M.isAlnum) from by
          simp [pyTokens, hc]] at ht
        rcases List.mem_cons.mp ht with rfl | ht2
        · constructor
          · rw [List.takeWhile_cons_of_pos hc]
            simp
          · intro d hd
            exact ⟨List.mem_takeWhile_imp hd, (List.takeWhile_sublist _).subset hd⟩
        · have hlen : ((c :: cs).dropWhile M.isAlnum).length ≤ n := by
            rw [List.dropWhile_cons_of_pos hc]
            have hd := (List.dropWhile_sublist M.isAlnum (l := cs)).length_le
            have hcs : cs.length ≤ n := by simpa using hw
            omega
          obtain ⟨h1, h2⟩ := ih _ hlen t ht2
          refine ⟨h1, fun d hd => ⟨(h2 d hd).1, ?_⟩⟩
          have := (h2 d hd).2
          exact (List.dropWhile_sublist M.isAlnum).subset this
      · rw [show pyTokens M (c :: cs) = pyTokens M cs from by simp [pyTokens, hc]] at ht
        have hcs : cs.length ≤ n := by simpa using hw
        obtain ⟨h1, h2⟩ := ih cs hcs t ht
        exact ⟨h1, fun d hd => ⟨(h2 d hd).1, List.mem_cons_of_mem _ (h2 d hd).2⟩⟩

/-- Tokens produced by pyTokens are nonempty, alphanumeric, and drawn from
the input. -/
theorem pyTokens_sound (M : CharModel) (w : PyStr) :
    ∀ t ∈ pyTokens M w, t ≠ [] ∧ ∀ c ∈ t, M.isAlnum c = true ∧ c ∈ w :=
  pyTokens_sound_aux M w.length w (le_refl _)

theorem takeWhile_append_all (p : Char → Bool) :
    ∀ (t r : PyStr), (∀ c ∈ t, p c = true) →
      (t ++ r).takeWhile p = t ++ r.takeWhile p := by
  intro t
  induction t with
  | nil => intro r _; simp
  | cons c cs ih =>
    intro r h
    have hc := h c (by simp)
    simp only [List.cons_append, List.takeWhile_cons_of_pos hc]
    rw [ih r (fun d hd => h d (List.mem_cons_of_mem _ hd))]

theorem dropWhile_append_all (p : Char → Bool) :
    ∀ (t r : PyStr), (∀ c ∈ t, p c = true) →
      (t ++ r).dropWhile p = r.dropWhile p := by
  intro t
  induction t with
  | nil => intro r _; simp
  | cons c cs ih =>
    intro r h
    have hc := h c (by simp)
    simp only [List.cons_append, List.dropWhile_cons_of_pos hc]
    exact ih r (fun d hd => h d (List.mem_cons_of_mem _ hd))

/-- Retokenizing the hyphen-join of nonempty alphanumeric tokens recovers
exactly the tokens. -/
theorem pyTokens_join (M : CharModel) :
    ∀ toks : List PyStr, (∀ t ∈ toks, t ≠ [] ∧ ∀ c ∈ t, M.isAlnum c = true) →
      pyTokens M (joinHyphen toks) = toks := by
  intro toks
  induction toks with
  | nil => intro _; simp [joinHyphen, pyTokens]
  | cons t ts ih =>
    intro hall
    obtain ⟨hne, hal⟩ := hall t (by simp)
    cases ts with
    | nil =>
      cases t with
      | nil => exact absurd rfl hne
      | cons c cs =>
        have hc := hal c (by simp)
        have htake : ((c :: cs) ++ ([] : PyStr)).takeWhile M.isAlnum =
            (c :: cs) ++ ([] : PyStr).takeWhile M.isAlnum :=
          takeWhile_append_all M.isAlnum (c :: cs) [] hal
        have hdrop : ((c :: cs) ++ ([] : PyStr)).dropWhile M.isAlnum =
            ([] : PyStr).dropWhile M.isAlnum :=
          dropWhile_append_all M.isAlnum (c :: cs) [] hal
        simp only [List.append_nil] at htake hdrop
        show pyTokens M (c :: cs) = [c :: cs]
        rw [show pyTokens M (c :: cs) =
            ((c :: cs).takeWhile M.isAlnum) :: pyTokens M ((c :: cs).dropWhile M.isAlnum) from by
          simp [pyTokens, hc]]
        rw [htake, hdrop]
        simp [pyTokens]
    | cons t2 ts2 =>
      cases t with
      | nil => exact absurd rfl hne
      | cons c cs =>
        have hc := hal c (by simp)
        have hrest := ih (fun u hu => hall u (List.mem_cons_of_mem _ hu))
        show pyTokens M ((c :: cs) ++ '-' :: joinHyphen (t2 :: ts2)) = (c :: cs) :: t2 :: ts2
        have hnal : M.isAlnum '-' = false := M.alnum_hyphen
        rw [show pyTokens M ((c :: cs) ++ '-' :: joinHyphen (t2 :: ts2)) =
            (((c :: cs) ++ '-' :: joinHyphen (t2 :: ts2)).takeWhile M.isAlnum) ::
              pyTokens M (((c :: cs) ++ '-' :: joinHyphen (t2 :: ts2)).dropWhile M.isAlnum) from by
          simp [pyTokens, hc]]
        rw [takeWhile_append_all M.isAlnum _ _ hal, dropWhile_append_all M.isAlnum _ _ hal]
        rw [List.takeWhile_cons_of_neg (by simp [hnal]), List.dropWhile_cons_of_neg (by simp [hnal])]
        rw [show pyTokens M ('-' :: joinHyphen (t2 :: ts2)) = pyTokens M (joinHyphen (t2 :: ts2)) from by
          simp [pyTokens, hnal]]
        rw [hrest]
        simp

/-- Any character of a hyphen-join is the hyphen or a character of one of
the tokens. -/
theorem mem_joinHyphen (c : Char) : ∀ toks : List PyStr, c ∈ joinHyphen toks →
    c = '-' ∨ ∃ t ∈ toks, c ∈ t := by
  intro toks
  induction toks with
  | nil => intro h; cases h
  | cons t ts ih =>
    intro h
    cases ts with
    | nil =>
      refine Or.inr ⟨t, by simp, ?_⟩
      simpa [joinHyphen] using h
    | cons t2 ts2 =>
      rw [show joinHyphen (t :: t2 :: ts2) = t ++ '-' :: joinHyphen (t2 :: ts2) from rfl] at h
      rcases List.mem_append.mp h with h1 | h1
      · exact Or.inr ⟨t, by simp, h1⟩
      · rcases List.mem_cons.mp h1 with rfl | h2
        · exact Or.inl rfl
        · rcases ih h2 with h3 | ⟨u, hu, hcu⟩
          · exact Or.inl h3
          · exact Or.inr ⟨u, List.mem_cons_of_mem _ hu, hcu⟩

theorem map_id_of_fixed (f : Char → Char) :
    ∀ l : PyStr, (∀ c ∈ l, f c = c) → l.map f = l := by
  intro l
  induction l with
  | nil => intro _; rfl
  | cons c cs ih =>
    intro h
    simp only [List.map_cons, h c (by simp), ih (fun d hd => h d (List.mem_cons_of_mem _ hd))]

theorem flatMap_singleton (f : Char → List Char) :
    ∀ l : PyStr, (∀ c ∈ l, f c = [c]) → l.flatMap f = l := by
  intro l
  induction l with
  | nil => intro _; rfl
  | cons c cs ih =>
    intro h
    simp only [List.flatMap_cons, h c (by simp), ih (fun d hd => h d (List.mem_cons_of_mem _ hd))]
    rfl

theorem stripParenLoop_id :
    ∀ l : PyStr, (∀ c ∈ l, c ≠ '(' ∧ c ≠ ')') → stripParenLoop 0 l = l := by
  intro l
  induction l with
  | nil => intro _; rfl
  | cons c cs ih =>
    intro h
    obtain ⟨h1, h2⟩ := h c (by simp)
    simp only [stripParenLoop, if_neg h1, if_neg h2, lt_irrefl 0, if_false]
    rw [ih (fun d hd => h d (List.mem_cons_of_mem _ hd))]

/-- Any character of the cleaned pipeline output that is alphanumeric is
stable under NFKD, combining-mark removal and lowercasing (CharModel fact
out_stable applied to the pipeline structure). -/
theorem normalizeCleaned_stable (M : CharModel) (v : PyStr) (rp : Bool) :
    ∀ d ∈ normalizeCleaned M v rp, M.isAlnum d = true →
      M.nfkd d = [d] ∧ M.combining d = false ∧ M.lower d = [d] := by
  intro d hd halnum
  unfold normalizeCleaned at hd
  obtain ⟨c, hc, hdc⟩ := List.mem_flatMap.mp hd
  obtain ⟨hcm, hcc⟩ := List.mem_filter.mp hc
  obtain ⟨cs, _, hcn⟩ := List.mem_flatMap.mp hcm
  exact M.out_stable cs c d hcn (by simpa using hcc) hdc halnum

theorem pyTokens_nil_of_no_alnum (M : CharModel) :
    ∀ w : PyStr, (∀ c ∈ w, M.isAlnum c = false) → pyTokens M w = [] := by
  intro w
  induction w with
  | nil => intro _; simp [pyTokens]
  | cons c cs ih =>
    intro h
    have hc : ¬ M.isAlnum c = true := by simp [h c (by simp)]
    rw [show pyTokens M (c :: cs) = pyTokens M cs from by simp [pyTokens, hc]]
    exact ih (fun d hd => h d (List.mem_cons_of_mem _ hd))

/-- Claim C7: normalize_title is idempotent (with default parenthetical
removal), it is a total function whose value on the empty string is the
empty slug, and an input none of whose pipeline characters is alphanumeric
(in particular a punctuation-only input) yields the empty slug rather than
an error. -/
theorem normalize_title_idempotent_total (M : CharModel) :
    (∀ x, normalize_title M (normalize_title M x) = normalize_title M x) ∧
    normalize_title M [] = [] ∧
    (∀ x, (∀ d ∈ normalizeCleaned M x true, M.isAlnum d = false) →
      normalize_title M x = []) := by
  refine ⟨?_, by simp [normalize_title], ?_⟩
  · intro v
    by_cases hv : v = []
    · simp [normalize_title, hv]
    · set z := normalize_title M v with hz
      by_cases hz0 : z = []
      · rw [hz0]
        simp [normalize_title]
      · set toks := pyTokens M (normalizeCleaned M v true) with htoks
        have hzdef : z = joinHyphen toks := by
          rw [hz]
          simp only [normalize_title, if_neg hv]
        have htokfacts : ∀ t ∈ toks, t ≠ [] ∧ ∀ c ∈ t, M.isAlnum c = true := by
          intro t ht
          obtain ⟨h1, h2⟩ := pyTokens_sound M (normalizeCleaned M v true) t ht
          exact ⟨h1, fun c hc => (h2 c hc).1⟩
        have hgood : ∀ c ∈ z, c = '-' ∨ (M.isAlnum c = true ∧ M.nfkd c = [c] ∧
            M.combining c = false ∧ M.lower c = [c]) := by
          intro c hc
          rw [hzdef] at hc
          rcases mem_joinHyphen c toks hc with h | ⟨t, ht, hct⟩
          · exact Or.inl h
          · right
            obtain ⟨_, h2⟩ := pyTokens_sound M (normalizeCleaned M v true) t ht
            obtain ⟨halnum, hmem⟩ := h2 c hct
            exact ⟨halnum, normalizeCleaned_stable M v true c hmem halnum⟩
        have h1 : z.map replaceTypographic = z := by
          apply map_id_of_fixed
          intro c hc
          rcases hgood c hc with rfl | ⟨ha, _⟩
          · decide
          · obtain ⟨_, _, n3, n4, n5, n6⟩ := M.alnum_not_special c ha
            simp [replaceTypographic, n3, n4, n5, n6]
        have h2 : strip_parenthetical z = z := by
          apply stripParenLoop_id
          intro c hc
          rcases hgood c hc with rfl | ⟨ha, _⟩
          · exact ⟨by decide, by decide⟩
          · exact ⟨(M.alnum_not_special c ha).1, (M.alnum_not_special c ha).2.1⟩
        have h3 : z.flatMap M.nfkd = z := by
          apply flatMap_singleton
          intro c hc
          rcases hgood c hc with rfl | ⟨_, h, _⟩
          · exact M.nfkd_hyphen
          · exact h
        have h4 : z.filter (fun c => !(M.combining c)) = z := by
          rw [List.filter_eq_self]
          intro c hc
          rcases hgood c hc with rfl | ⟨_, _, h, _⟩
          · simp [M.combining_hyphen]
          · simp [h]
        have h5 : z.flatMap M.lower = z := by
          apply flatMap_singleton
          intro c hc
          rcases hgood c hc with rfl | ⟨_, _, _, h⟩
          · exact M.lower_hyphen
          · exact h
        have hcleaned : normalizeCleaned M z true = z := by
          show ((((strip_parenthetical (z.map replaceTypographic))).flatMap
            M.nfkd).filter (fun c => !(M.combining c))).flatMap M.lower = z
          rw [h1, h2, h3, h4, h5]
        have h6 : pyTokens M z = toks := by
          rw [hzdef]
          exact pyTokens_join M toks htokfacts
        show normalize_title M z = z
        rw [show normalize_title M z = joinHyphen (pyTokens M (normalizeCleaned M z true)) from by
          simp only [normalize_title, if_neg hz0]]
        rw [hcleaned, h6, ← hzdef]
  · intro x hx
    unfold normalize_title
    split
    · rfl
    · rw [pyTokens_nil_of_no_alnum M _ hx]
      rfl

/-- Witness for the C7 theorem at a concrete typographic input and a
punctuation-only input. -/
theorem normalize_title_idempotent_witness :
    normalize_title asciiModel (normalize_title asciiModel (pys "The Hunt (Live) - Remix")) =
      normalize_title asciiModel (pys "The Hunt (Live) - Remix") ∧
    normalize_title asciiModel (pys "?!") = [] :=
  ⟨(normalize_title_idempotent_total asciiModel).1 _,
   (normalize_title_idempotent_total asciiModel).2.2 _
     (of_decide_eq_true (by with_unfolding_all rfl))⟩


/-! ### C2 amended: characterization of the output-stage year gate -/

/-- The entry serialised for one match: the override fields other than
allow_album_mismatch merged over the match's to_dict form. -/
def mergedEntry (M : CharModel) (r : StreamingOverrideResolver) (m : StreamingMatch) : PyDict :=
  match (r.lookup M m.performance).1 with
  | some ov => ov.foldl
      (fun e kv => if kv.1 = pys "allow_album_mismatch" then e else dictSet e kv.1 kv.2)
      m.to_dict
  | none => m.to_dict

/-- Whether the override entry matching this performance, if any, sets a
truthy allow_album_mismatch. -/
def allowMismatchOf (M : CharModel) (r : StreamingOverrideResolver) (m : StreamingMatch) : Bool :=
  match (r.lookup M m.performance).1 with
  | some ov => pyTruthy (dictGet ov (pys "allow_album_mismatch"))
  | none => false

/-- The record the serialisation pass keeps for one match, as a function of
the match, the override table and the band type alone: skip a match with no
track, otherwise keep the merged entry unless the output-stage year gate
drops it. -/
def keptEntry (M : CharModel) (year : Nat) (r : StreamingOverrideResolver)
    (m : StreamingMatch) : Option PyDict :=
  if m.spotify = none ∧ m.apple_music = none then none
  else if allowMismatchOf M r m then some (mergedEntry M r m)
  else
    let album_text := pyStrOr (dictGet (mergedEntry M r m) (pys "album"))
    if album_text = [] ∨ ¬ containsSub album_text (natToStr year) then none
    else some (mergedEntry M r m)

/-- A lookup never changes the override table or the run's band type. -/
theorem lookup_table_invariant (M : CharModel) (r : StreamingOverrideResolver)
    (p : Performance) :
    ((r.lookup M p).2).overrides = r.overrides ∧
    ((r.lookup M p).2).band_type = r.band_type := by
  simp only [StreamingOverrideResolver.lookup]
  split
  · exact ⟨rfl, rfl⟩
  · split
    · exact ⟨rfl, rfl⟩
    · split
      · split
        · exact ⟨rfl, rfl⟩
        · exact ⟨rfl, rfl⟩
      · exact ⟨rfl, rfl⟩

/-- The fields a lookup returns depend only on the override table and the
band type, never on the applied-key set. -/
theorem lookup_fst_congr (M : CharModel) (r1 r2 : StreamingOverrideResolver)
    (p : Performance) (ho : r1.overrides = r2.overrides)
    (hb : r1.band_type = r2.band_type) :
    (r1.lookup M p).1 = (r2.lookup M p).1 := by
  simp only [StreamingOverrideResolver.lookup, ho, hb]
  split
  · rfl
  · split
    · rfl
    · split
      · split
        · rfl
        · rfl
      · rfl

/-- keptEntry depends only on the override table and the band type. -/
theorem keptEntry_congr (M : CharModel) (year : Nat) (r1 r2 : StreamingOverrideResolver)
    (m : StreamingMatch) (ho : r1.overrides = r2.overrides)
    (hb : r1.band_type = r2.band_type) :
    keptEntry M year r1 m = keptEntry M year r2 m := by
  simp only [keptEntry, mergedEntry, allowMismatchOf,
    lookup_fst_congr M r1 r2 m.performance ho hb]

/-- One serialisation step appends exactly the kept entry of the match and
preserves the override table and band type of the resolver state. -/
theorem autoStep_spec (M : CharModel) (year : Nat) (acc : List PyDict)
    (r : StreamingOverrideResolver) (m : StreamingMatch) :
    (autoStep M year (acc, r) m).1 = acc ++ (keptEntry M year r m).toList ∧
    (autoStep M year (acc, r) m).2.overrides = r.overrides ∧
    (autoStep M year (acc, r) m).2.band_type = r.band_type := by
  obtain ⟨hov, hbt⟩ := lookup_table_invariant M r m.performance
  by_cases hskip : m.spotify = none ∧ m.apple_music = none
  · simp [autoStep, keptEntry, hskip]
  · rcases hlk : (StreamingOverrideResolver.lookup M r m.performance).1 with _ | ov
    · simp only [autoStep, keptEntry, mergedEntry, allowMismatchOf, hlk, if_neg hskip,
        Bool.false_eq_true, if_false]
      split
      · exact ⟨by simp, hov, hbt⟩
      · exact ⟨by simp, hov, hbt⟩
    · simp only [autoStep, keptEntry, mergedEntry, allowMismatchOf, hlk, if_neg hskip]
      by_cases hal : pyTruthy (dictGet ov (pys "allow_album_mismatch")) = true
      · rw [if_pos hal, if_pos hal]
        exact ⟨by simp, hov, hbt⟩
      · rw [if_neg hal, if_neg hal]
        split
        · exact ⟨by simp, hov, hbt⟩
        · exact ⟨by simp, hov, hbt⟩

/-- The automatic pass is the filterMap of keptEntry over the matches: the
applied-key bookkeeping threaded through the fold never changes which
records are kept. -/
theorem autoFold_spec (M : CharModel) (year : Nat) :
    ∀ (ms : List StreamingMatch) (acc : List PyDict)
      (r r0 : StreamingOverrideResolver),
      r.overrides = r0.overrides → r.band_type = r0.band_type →
      (ms.foldl (autoStep M year) (acc, r)).1 =
        acc ++ ms.filterMap (keptEntry M year r0) := by
  intro ms
  induction ms with
  | nil => intro acc r r0 ho hb; simp
  | cons m ms ih =>
    intro acc r r0 ho hb
    rw [List.foldl_cons]
    obtain ⟨h1, h2, h3⟩ := autoStep_spec M year acc r m
    calc (List.foldl (autoStep M year) (autoStep M year (acc, r) m) ms).1
        = (List.foldl (autoStep M year)
            ((autoStep M year (acc, r) m).1, (autoStep M year (acc, r) m).2) ms).1 := by
          rw [Prod.mk.eta]
      _ = (autoStep M year (acc, r) m).1 ++ ms.filterMap (keptEntry M year r0) :=
          ih _ _ r0 (h2.trans ho) (h3.trans hb)
      _ = (acc ++ (keptEntry M year r m).toList) ++ ms.filterMap (keptEntry M year r0) := by
          rw [h1]
      _ = acc ++ List.filterMap (keptEntry M year r0) (m :: ms) := by
          rw [keptEntry_congr M year r r0 m ho hb, List.filterMap_cons]
          cases keptEntry M year r0 m <;> simp

/-- Claim C2 (amended): the records built from the accepted automatic
matches are exactly the kept entries of the matches; a match with at least
one track is kept precisely when its overrides set allow_album_mismatch or
its merged album string is truthy and contains the literal year token as a
substring; and every kept record reaches the final sorted output of
build_year_streaming_entries. -/
theorem output_year_gate_characterization (M : CharModel) (year : Nat)
    (performances : List Performance) (F : StreamingLinkFinder)
    (resolver : StreamingOverrideResolver) :
    ((buildMatches M F performances).foldl (autoStep M year) ([], resolver)).1 =
      (buildMatches M F performances).filterMap (keptEntry M year resolver) ∧
    (∀ m : StreamingMatch, ¬ (m.spotify = none ∧ m.apple_music = none) →
      keptEntry M year resolver m =
        if allowMismatchOf M resolver m = true ∨
            (pyStrOr (dictGet (mergedEntry M resolver m) (pys "album")) ≠ [] ∧
              containsSub (pyStrOr (dictGet (mergedEntry M resolver m) (pys "album")))
                (natToStr year) = true)
        then some (mergedEntry M resolver m) else none) ∧
    (∀ e ∈ (buildMatches M F performances).filterMap (keptEntry M year resolver),
      e ∈ build_year_streaming_entries M year performances F resolver) := by
  have hfold : ((buildMatches M F performances).foldl (autoStep M year) ([], resolver)).1 =
      (buildMatches M F performances).filterMap (keptEntry M year resolver) := by
    rw [autoFold_spec M year (buildMatches M F performances) [] resolver resolver rfl rfl]
    simp
  refine ⟨hfold, ?_, ?_⟩
  · intro m htrack
    simp only [keptEntry, if_neg htrack]
    by_cases hal : allowMismatchOf M resolver m = true
    · rw [if_pos hal, if_pos (Or.inl hal)]
    · rw [if_neg hal]
      by_cases hc : pyStrOr (dictGet (mergedEntry M resolver m) (pys "album")) = [] ∨
          ¬ containsSub (pyStrOr (dictGet (mergedEntry M resolver m) (pys "album")))
              (natToStr year) = true
      · rw [if_pos hc, if_neg ?_]
        rintro (h | ⟨hT, hC⟩)
        · exact hal h
        · rcases hc with h1 | h2
          · exact hT h1
          · exact h2 hC
      · rw [if_neg hc, if_pos (Or.inr ⟨fun h => hc (Or.inl h),
          not_not.mp (fun h => hc (Or.inr h))⟩)]
  · intro e he
    rw [← hfold] at he
    simp only [build_year_streaming_entries]
    exact (List.mergeSort_perm _ entryKeyLe).mem_iff.mpr (List.mem_append_left _ he)

/-- The match of the release-year counterexample, packaged as a record. -/
def c2match : StreamingMatch :=
  { performance := c1perf, spotify := some c2track, apple_music := none }

/-- The output-gate characterization applied to the concrete counterexample
match under the empty resolver. -/
theorem output_year_gate_characterization_witness :
    ¬ (c2match.spotify = none ∧ c2match.apple_music = none) ∧
    keptEntry asciiModel 2023 emptyResolver c2match =
      (if allowMismatchOf asciiModel emptyResolver c2match = true ∨
          (pyStrOr (dictGet (mergedEntry asciiModel emptyResolver c2match) (pys "album")) ≠ [] ∧
            containsSub
              (pyStrOr (dictGet (mergedEntry asciiModel emptyResolver c2match) (pys "album")))
              (natToStr 2023) = true)
        then some (mergedEntry asciiModel emptyResolver c2match) else none) :=
  ⟨by simp [c2match],
   (output_year_gate_characterization asciiModel 2023 [c1perf] c2finder emptyResolver).2.1
     c2match (by simp [c2match])⟩

/-! ### C1 amended: order invariance of the candidate id set below the cap -/

/-- The inner album loop of the Spotify candidate collection, over an
explicit album list. -/
def spotifyAlbumFold (M : CharModel) (year : Nat) (division : PyStr)
    (as : List Album) (st : List (ℚ × Album) × List PyStr) :
    List (ℚ × Album) × List PyStr :=
  as.foldl
    (fun (st : List (ℚ × Album) × List PyStr) album =>
      match album.id with
      | none => st
      | some aid =>
        if aid = [] ∨ aid ∈ st.2 then st
        else (st.1 ++ [(score_album_relevance M album year division, album)], st.2 ++ [aid]))
    st

/-- The set of candidate album ids reachable from one search term: the
truthy ids of the albums its search returns. -/
def spotifySearchIds (P : SpotifyProvider) (t : PyStr) : Finset PyStr :=
  (((P.searchAlbums t).filterMap (fun a => a.id)).filter
    (fun aid => decide (aid ≠ []))).toFinset

/-- Union of the reachable candidate ids over a term order. -/
def spotifyIdsUnion (P : SpotifyProvider) (o : List PyStr) : Finset PyStr :=
  o.foldr (fun t acc => spotifySearchIds P t ∪ acc) ∅

/-- The reachable-id union is the supremum over the term set, hence is
invariant under reordering of the terms. -/
theorem spotifyIdsUnion_eq_sup (P : SpotifyProvider) :
    ∀ o : List PyStr, spotifyIdsUnion P o = o.toFinset.sup (spotifySearchIds P) := by
  intro o
  induction o with
  | nil => simp [spotifyIdsUnion]
  | cons t o ih =>
    simp only [spotifyIdsUnion, List.foldr_cons] at ih ⊢
    rw [ih, List.toFinset_cons, Finset.sup_insert, Finset.sup_eq_union]

/-- Invariants of the album loop: the candidate list only grows, candidates
and seen ids grow in lockstep, seen ids stay duplicate-free, the seen-id
set accumulates exactly the truthy ids of the processed albums, and the id
projection of the candidates tracks the seen-id list. -/
theorem spotifyAlbumFold_spec (M : CharModel) (year : Nat) (division : PyStr) :
    ∀ (as : List Album) (c : List (ℚ × Album)) (s : List PyStr),
      c.length ≤ (spotifyAlbumFold M year division as (c, s)).1.length ∧
      c.length + (spotifyAlbumFold M year division as (c, s)).2.length =
        (spotifyAlbumFold M year division as (c, s)).1.length + s.length ∧
      (s.Nodup → (spotifyAlbumFold M year division as (c, s)).2.Nodup) ∧
      (spotifyAlbumFold M year division as (c, s)).2.toFinset =
        s.toFinset ∪
          ((as.filterMap (fun a => a.id)).filter (fun aid => decide (aid ≠ []))).toFinset ∧
      (c.map (fun sa => (sa.2.id).getD []) = s →
        (spotifyAlbumFold M year division as (c, s)).1.map (fun sa => (sa.2.id).getD []) =
          (spotifyAlbumFold M year division as (c, s)).2) := by
  intro as
  induction as with
  | nil =>
    intro c s
    refine ⟨le_refl _, rfl, fun h => h, ?_, fun h => h⟩
    simp [spotifyAlbumFold]
  | cons a as ih =>
    intro c s
    cases hid : a.id with
    | none =>
      have hstep : spotifyAlbumFold M year division (a :: as) (c, s) =
          spotifyAlbumFold M year division as (c, s) := by
        simp only [spotifyAlbumFold, List.foldl_cons, hid]
      have hfm : (a :: as).filterMap (fun a => a.id) = as.filterMap (fun a => a.id) := by
        simp [List.filterMap_cons, hid]
      rw [hstep, hfm]
      exact ih c s
    | some aid =>
      have hfm : (a :: as).filterMap (fun a => a.id) =
          aid :: as.filterMap (fun a => a.id) := by
        simp [List.filterMap_cons, hid]
      by_cases hskip : aid = [] ∨ aid ∈ s
      · have hstep : spotifyAlbumFold M year division (a :: as) (c, s) =
            spotifyAlbumFold M year division as (c, s) := by
          simp only [spotifyAlbumFold, List.foldl_cons, hid]
          rw [if_pos hskip]
        rw [hstep, hfm]
        obtain ⟨h1, h2, h3, h4, h5⟩ := ih c s
        by_cases haid : aid = []
        · simp only [List.filter_cons]
          rw [if_neg (by simp [haid])]
          exact ⟨h1, h2, h3, h4, h5⟩
        · have hmem : aid ∈ s := hskip.resolve_left haid
          simp only [List.filter_cons]
          rw [if_pos (by simp [haid])]
          refine ⟨h1, h2, h3, ?_, h5⟩
          rw [h4, List.toFinset_cons]
          ext x
          simp only [Finset.mem_union, Finset.mem_insert, List.mem_toFinset]
          constructor
          · rintro (h | h)
            · exact Or.inl h
            · exact Or.inr (Or.inr h)
          · rintro (h | h | h)
            · exact Or.inl h
            · subst h; exact Or.inl hmem
            · exact Or.inr h
      · push_neg at hskip
        obtain ⟨hnil, hmem⟩ := hskip
        have hstep : spotifyAlbumFold M year division (a :: as) (c, s) =
            spotifyAlbumFold M year division as
              (c ++ [(score_album_relevance M a year division, a)], s ++ [aid]) := by
          simp only [spotifyAlbumFold, List.foldl_cons, hid]
          rw [if_neg (by push_neg; exact ⟨hnil, hmem⟩)]
        rw [hstep, hfm]
        obtain ⟨h1, h2, h3, h4, h5⟩ :=
          ih (c ++ [(score_album_relevance M a year division, a)]) (s ++ [aid])
        refine ⟨?_, ?_, ?_, ?_, ?_⟩
        · exact le_trans (by simp) h1
        · simp only [List.length_append, List.length_cons, List.length_nil] at h2 ⊢
          omega
        · intro hnd
          exact h3 (by simp [List.nodup_append, hnd, hmem])
        · rw [h4]
          simp only [List.filter_cons]
          rw [if_pos (by simp [hnil]), List.toFinset_cons, List.toFinset_append]
          ext x
          simp only [Finset.mem_union, Finset.mem_insert, List.mem_toFinset,
            List.mem_singleton]
          constructor
          · rintro ((h | h) | h)
            · exact Or.inl h
            · exact Or.inr (Or.inl h)
            · exact Or.inr (Or.inr h)
          · rintro (h | h | h)
            · exact Or.inl (Or.inl h)
            · exact Or.inl (Or.inr h)
            · exact Or.inr h
        · intro hmap
          refine h5 ?_
          rw [List.map_append, hmap]
          simp [hid]

/-- The per-term step enjoys the album-loop invariants. -/
theorem spotifyTermStep_spec (M : CharModel) (P : SpotifyProvider) (year : Nat)
    (division : PyStr) (term : PyStr) (c : List (ℚ × Album)) (s : List PyStr) :
    c.length ≤ (spotifyTermStep M P year division (c, s) term).1.length ∧
    c.length + (spotifyTermStep M P year division (c, s) term).2.length =
      (spotifyTermStep M P year division (c, s) term).1.length + s.length ∧
    (s.Nodup → (spotifyTermStep M P year division (c, s) term).2.Nodup) ∧
    (spotifyTermStep M P year division (c, s) term).2.toFinset =
      s.toFinset ∪ spotifySearchIds P term ∧
    (c.map (fun sa => (sa.2.id).getD []) = s →
      (spotifyTermStep M P year division (c, s) term).1.map (fun sa => (sa.2.id).getD []) =
        (spotifyTermStep M P year division (c, s) term).2) :=
  spotifyAlbumFold_spec M year division (P.searchAlbums term) c s

/-- Invariants of the uncapped collection fold over a whole term order. -/
theorem collectSpotifyFull_spec (M : CharModel) (P : SpotifyProvider) (year : Nat)
    (division : PyStr) :
    ∀ (o : List PyStr) (c : List (ℚ × Album)) (s : List PyStr),
      c.length ≤ (collectSpotifyFull M P year division o (c, s)).1.length ∧
      c.length + (collectSpotifyFull M P year division o (c, s)).2.length =
        (collectSpotifyFull M P year division o (c, s)).1.length + s.length ∧
      (s.Nodup → (collectSpotifyFull M P year division o (c, s)).2.Nodup) ∧
      (collectSpotifyFull M P year division o (c, s)).2.toFinset =
        s.toFinset ∪ spotifyIdsUnion P o ∧
      (c.map (fun sa => (sa.2.id).getD []) = s →
        (collectSpotifyFull M P year division o (c, s)).1.map (fun sa => (sa.2.id).getD []) =
          (collectSpotifyFull M P year division o (c, s)).2) := by
  intro o
  induction o with
  | nil =>
    intro c s
    refine ⟨le_refl _, rfl, fun h => h, ?_, fun h => h⟩
    simp [collectSpotifyFull, spotifyIdsUnion]
  | cons t o ih =>
    intro c s
    have hkey : collectSpotifyFull M P year division (t :: o) (c, s) =
        collectSpotifyFull M P year division o
          ((spotifyTermStep M P year division (c, s) t).1,
           (spotifyTermStep M P year division (c, s) t).2) := by
      rw [Prod.mk.eta]
      rfl
    rw [hkey]
    obtain ⟨ha1, ha2, ha3, ha4, ha5⟩ := spotifyTermStep_spec M P year division t c s
    obtain ⟨hb1, hb2, hb3, hb4, hb5⟩ := ih (spotifyTermStep M P year division (c, s) t).1
      (spotifyTermStep M P year division (c, s) t).2
    refine ⟨le_trans ha1 hb1, by omega, fun hnd => hb3 (ha3 hnd), ?_,
      fun hmap => hb5 (ha5 hmap)⟩
    rw [hb4, ha4]
    show _ = s.toFinset ∪ spotifyIdsUnion P (t :: o)
    rw [show spotifyIdsUnion P (t :: o) = spotifySearchIds P t ∪ spotifyIdsUnion P o from rfl,
      Finset.union_assoc]

/-- The capped collection never yields more candidates than the uncapped
fold. -/
theorem collect_le_full (M : CharModel) (P : SpotifyProvider) (year : Nat)
    (division : PyStr) :
    ∀ (o : List PyStr) (c : List (ℚ × Album)) (s : List PyStr),
      (collectSpotifyCandidates M P year division o c s).length ≤
        (collectSpotifyFull M P year division o (c, s)).1.length := by
  intro o
  induction o with
  | nil => intro c s; exact le_refl _
  | cons t o ih =>
    intro c s
    have hkey : collectSpotifyFull M P year division (t :: o) (c, s) =
        collectSpotifyFull M P year division o
          ((spotifyTermStep M P year division (c, s) t).1,
           (spotifyTermStep M P year division (c, s) t).2) := by
      rw [Prod.mk.eta]
      rfl
    rw [hkey]
    by_cases hcap : 15 ≤ (spotifyTermStep M P year division (c, s) t).1.length
    · have hcoll : collectSpotifyCandidates M P year division (t :: o) c s =
          (spotifyTermStep M P year division (c, s) t).1 := by
        simp only [collectSpotifyCandidates]
        rw [if_pos hcap]
      rw [hcoll]
      exact (collectSpotifyFull_spec M P year division o _ _).1
    · have hcoll : collectSpotifyCandidates M P year division (t :: o) c s =
          collectSpotifyCandidates M P year division o
            (spotifyTermStep M P year division (c, s) t).1
            (spotifyTermStep M P year division (c, s) t).2 := by
        simp only [collectSpotifyCandidates]
        rw [if_neg hcap]
      rw [hcoll]
      exact ih _ _

/-- When fewer than 15 candidates come out, the cap never fired and the
capped collection equals the uncapped fold. -/
theorem collect_eq_full_of_lt (M : CharModel) (P : SpotifyProvider) (year : Nat)
    (division : PyStr) :
    ∀ (o : List PyStr) (c : List (ℚ × Album)) (s : List PyStr),
      (collectSpotifyCandidates M P year division o c s).length < 15 →
      collectSpotifyCandidates M P year division o c s =
        (collectSpotifyFull M P year division o (c, s)).1 := by
  intro o
  induction o with
  | nil => intro c s _; rfl
  | cons t o ih =>
    intro c s hlt
    have hkey : collectSpotifyFull M P year division (t :: o) (c, s) =
        collectSpotifyFull M P year division o
          ((spotifyTermStep M P year division (c, s) t).1,
           (spotifyTermStep M P year division (c, s) t).2) := by
      rw [Prod.mk.eta]
      rfl
    by_cases hcap : 15 ≤ (spotifyTermStep M P year division (c, s) t).1.length
    · exfalso
      have hcoll : collectSpotifyCandidates M P year division (t :: o) c s =
          (spotifyTermStep M P year division (c, s) t).1 := by
        simp only [collectSpotifyCandidates]
        rw [if_pos hcap]
      rw [hcoll] at hlt
      omega
    · have hcoll : collectSpotifyCandidates M P year division (t :: o) c s =
          collectSpotifyCandidates M P year division o
            (spotifyTermStep M P year division (c, s) t).1
            (spotifyTermStep M P year division (c, s) t).2 := by
        simp only [collectSpotifyCandidates]
        rw [if_neg hcap]
      rw [hcoll] at hlt ⊢
      rw [hkey]
      exact ih _ _ hlt

/-- Claim C1 (amended): when the collection loop finishes with fewer than 15
candidates, the set of candidate album ids it gathered is the union, over
the term set, of the truthy album ids the searches return, and hence is the
same for any two term orders that are permutations of each other. -/
theorem spotify_candidate_ids_order_invariant (M : CharModel) (P : SpotifyProvider)
    (year : Nat) (division : PyStr) (o1 o2 : List PyStr) (hperm : o1.Perm o2)
    (hcap : (collectSpotifyCandidates M P year division o1 [] []).length < 15) :
    ((collectSpotifyCandidates M P year division o1 [] []).map
        (fun sa => (sa.2.id).getD [])).toFinset =
      o1.toFinset.sup (spotifySearchIds P) ∧
    ((collectSpotifyCandidates M P year division o2 [] []).map
        (fun sa => (sa.2.id).getD [])).toFinset =
      ((collectSpotifyCandidates M P year division o1 [] []).map
        (fun sa => (sa.2.id).getD [])).toFinset := by
  obtain ⟨h11, h12, h13, h14, h15⟩ := collectSpotifyFull_spec M P year division o1 [] []
  obtain ⟨h21, h22, h23, h24, h25⟩ := collectSpotifyFull_spec M P year division o2 [] []
  have hmap1 := h15 rfl
  have hmap2 := h25 rfl
  have hnd1 := h13 List.nodup_nil
  have hnd2 := h23 List.nodup_nil
  have hto1 : (collectSpotifyFull M P year division o1 ([], [])).2.toFinset =
      spotifyIdsUnion P o1 := by rw [h14]; simp
  have hto2 : (collectSpotifyFull M P year division o2 ([], [])).2.toFinset =
      spotifyIdsUnion P o2 := by rw [h24]; simp
  simp only [List.length_nil] at h12 h22
  have hcard1 := List.toFinset_card_of_nodup hnd1
  have hcard2 := List.toFinset_card_of_nodup hnd2
  have hU : spotifyIdsUnion P o1 = spotifyIdsUnion P o2 := by
    rw [spotifyIdsUnion_eq_sup, spotifyIdsUnion_eq_sup,
      List.toFinset_eq_of_perm o1 o2 hperm]
  have hlw : (collectSpotifyFull M P year division o2 ([], [])).1.length =
      (collectSpotifyFull M P year division o1 ([], [])).1.length := by
    have e1 : (collectSpotifyFull M P year division o1 ([], [])).2.length =
        (collectSpotifyFull M P year division o2 ([], [])).2.length := by
      rw [← hcard1, ← hcard2, hto1, hto2, hU]
    omega
  have he1 := collect_eq_full_of_lt M P year division o1 [] [] hcap
  have hle2 := collect_le_full M P year division o2 [] []
  have hcap2 : (collectSpotifyCandidates M P year division o2 [] []).length < 15 := by
    rw [he1] at hcap
    omega
  have he2 := collect_eq_full_of_lt M P year division o2 [] [] hcap2
  constructor
  · rw [he1, hmap1, hto1, spotifyIdsUnion_eq_sup]
  · rw [he1, he2, hmap1, hmap2, hto1, hto2, hU]

/-- The order-invariance theorem applied to the two concrete term orders of
the order-dependence counterexample, whose collection stops well below the
15-candidate cap. -/
theorem spotify_candidate_ids_order_invariant_witness :
    c1order1.Perm c1order2 ∧
    (collectSpotifyCandidates asciiModel c1provider 2023 (pys "Elite")
      c1order1 [] []).length < 15 ∧
    (((collectSpotifyCandidates asciiModel c1provider 2023 (pys "Elite")
          c1order1 [] []).map (fun sa => (sa.2.id).getD [])).toFinset =
        c1order1.toFinset.sup (spotifySearchIds c1provider) ∧
      ((collectSpotifyCandidates asciiModel c1provider 2023 (pys "Elite")
          c1order2 [] []).map (fun sa => (sa.2.id).getD [])).toFinset =
        ((collectSpotifyCandidates asciiModel c1provider 2023 (pys "Elite")
          c1order1 [] []).map (fun sa => (sa.2.id).getD [])).toFinset) :=
  ⟨(List.reverse_perm c1order1).symm,
   of_decide_eq_true (by with_unfolding_all rfl),
   spotify_candidate_ids_order_invariant asciiModel c1provider 2023 (pys "Elite")
     c1order1 c1order2 ((List.reverse_perm c1order1).symm)
     (of_decide_eq_true (by with_unfolding_all rfl))⟩

end BandPositions
